import Mathlib

/-!
Verification of the skipor/memcached cache core against its specification.

The development shallowly embeds the Go source:
* the LRU doubly linked list with sentinel nodes (`lru.go`): nodes live in a
  heap `Nat → Node`, lists in `Nat → Lru`, and every pointer write of the
  source (`link`, `attachAsInactive`, `pushBack`, `disown`, `detach`,
  `shrink`) becomes an explicit state transformer; a dereference of a nil
  pointer is surfaced as `Option` / a panicked result;
* the handler construction check (`NewHandler`);
* the protocol-layer `conn.set` and `conn.sendGetResponse` control flow
  (`conn.go`), with I/O outcomes abstracted into oracles and observable
  actions recorded as event traces.
-/

set_option maxHeartbeats 1000000

namespace Memcached

/-- Node of the LRU list (`type node struct` in the source).  `keyLen`
models `len(n.Key)`, `bytes` models `n.Bytes`.  `expiry` is the item's
absolute expiry time (`none` = never).  Pointers `owner`, `prev`, `next`
are ids into the corresponding heaps, `none` modelling a nil pointer.
The atomic `active int32` field (values `inactive = 0` / `active = 1`)
is modelled as a `Bool`. -/
structure Node where
  keyLen : Nat
  bytes : Nat
  expiry : Option Int
  active : Bool
  owner : Option Nat
  prev : Option Nat
  next : Option Nat
deriving DecidableEq, Repr

/-- LRU list record (`type lru struct`): the byte size counter and the two
sentinel node ids (`fakeHead`, `fakeTail`).  The callbacks of the source's
`callbacks` struct are passed separately to `shrink`. -/
structure Lru where
  size : Int
  fakeHead : Nat
  fakeTail : Nat
deriving DecidableEq, Repr

/-- The mutable state: the node heap and the lru heap. -/
structure State where
  nodes : Nat → Node
  lrus : Nat → Lru

/-- Pointwise function update used for heap writes. -/
def updFun {α : Type} (f : Nat → α) (i : Nat) (v : α) : Nat → α :=
  fun j => if j = i then v else f j

/-- Write a node cell. -/
def setNode (s : State) (i : Nat) (nd : Node) : State :=
  { s with nodes := updFun s.nodes i nd }

/-- Write an lru cell. -/
def setLru (s : State) (i : Nat) (l : Lru) : State :=
  { s with lrus := updFun s.lrus i l }

/-- `extraSizePerNode = 256` of the source. -/
def extraSizePerNode : Int := 256

/-- `func (n *node) size() int64 { return int64(extraSizePerNode + len(n.Key) + n.Bytes) }` -/
def Node.size (n : Node) : Int :=
  extraSizePerNode + (n.keyLen : Int) + (n.bytes : Int)

/-- Modelled from the spec: the `expired` method of the item embedded in a
node is not under `src/` (it lives in the cache package's item code); per
the spec a node is expired at `now` iff it has a finite expiry and
`now ≥ expiry`. -/
def Node.expired (n : Node) (now : Int) : Bool :=
  match n.expiry with
  | none => false
  | some e => e ≤ now

/-- `func link(a, b *node) { a.next, b.prev = b, a }`.  Callers of `link` in
the modelled code always pass non-nil pointers, so arguments are plain ids. -/
def link (s : State) (a b : Nat) : State :=
  let s1 := setNode s a { s.nodes a with next := some b }
  setNode s1 b { s1.nodes b with prev := some a }

/-- `func attachAsInactive(n *node)`: clears the active bit and splices `n`
immediately before its owner's tail sentinel.  Returns `none` when the code
would dereference a nil pointer (`n.owner` nil, or `owner.tail()` nil). -/
def attachAsInactive (s : State) (n : Nat) : Option State :=
  match (s.nodes n).owner with
  | none => none
  | some lid =>
    let s1 := setNode s n { s.nodes n with active := false }
    match (s1.nodes (s1.lrus lid).fakeTail).prev with
    | none => none
    | some t =>
      let s2 := link s1 t n
      some (link s2 n (s2.lrus lid).fakeTail)

/-- `func (l *lru) pushBack(n *node)`: sets `n.owner = l`, adds `n.size()`
to `l.size`, then `attachAsInactive(n)`. -/
def pushBack (s : State) (lid : Nat) (n : Nat) : Option State :=
  let s1 := setNode s n { s.nodes n with owner := some lid }
  let s2 := setLru s1 lid
    { s1.lrus lid with size := (s1.lrus lid).size + (s1.nodes n).size }
  attachAsInactive s2 n

/-- `func (n *node) disown()`: subtracts `n.size()` from `n.owner.size`;
in debug builds clears `n.owner`.  `none` models the nil-owner dereference. -/
def disown (dbg : Bool) (s : State) (n : Nat) : Option State :=
  match (s.nodes n).owner with
  | none => none
  | some lid =>
    let s1 := setLru s lid
      { s.lrus lid with size := (s.lrus lid).size - (s.nodes n).size }
    some (if dbg then setNode s1 n { s1.nodes n with owner := none } else s1)

/-- `func (n *node) detach()`: `link(n.prev, n.next)`; in debug builds nulls
`n.prev` and `n.next`.  `none` models a nil prev/next dereference. -/
def detach (dbg : Bool) (s : State) (n : Nat) : Option State :=
  match (s.nodes n).prev, (s.nodes n).next with
  | some p, some q =>
    let s1 := link s p q
    some (if dbg then setNode s1 n { s1.nodes n with prev := none, next := none } else s1)
  | _, _ => none

/-- `func moveTo(other *lru) func(*node)`: disown, then push back onto the
destination list. -/
def moveTo (dbg : Bool) (dst : Nat) (s : State) (n : Nat) : Option State :=
  (disown dbg s n).bind (fun s1 => pushBack s1 dst n)

/-- Modelled from the spec: the eviction passes' drop action ("disown and
drop") of the cache package is not under `src/`; dropping a node disowns it
and simply stops referencing it. -/
def dropNode (dbg : Bool) (s : State) (n : Nat) : Option State :=
  disown dbg s n

/-- The `callbacks` struct supplied to an lru at construction. -/
structure Callbacks where
  onExpire : State → Nat → Option State
  onActive : State → Nat → Option State
  onInactive : State → Nat → Option State

/-- Which of the three callbacks fired on a walked node. -/
inductive CbChoice where
  | expire
  | act
  | inact
deriving DecidableEq, Repr

/-- Ghost record of one iteration of the shrink walk: the walked node id,
its heap cell as read at dispatch time, the list size before the callback,
and the callback chosen. -/
structure WalkStep where
  node : Nat
  snap : Node
  sizeBefore : Int
  choice : CbChoice
deriving DecidableEq, Repr

/-- Result of a shrink run: normal return, a runtime panic (with the state
and walk trace at that point), or fuel exhaustion of the model. -/
inductive ShrinkResult where
  | ok (s : State) (trace : List WalkStep)
  | panicked (msg : String) (s : State) (trace : List WalkStep)
  | outOfFuel

/-- Panic message of a negative shrink target. -/
def negMsg : String := "try shrink to negative size"

/-- Panic message of `assertNotTail`. -/
def tailMsg : String := "node pointer out of range"

/-- Panic message standing for a Go nil-pointer dereference. -/
def nilMsg : String := "nil dereference"

/-- The first matching rule of the shrink dispatch: expired, else active,
else inactive. -/
def dispatchChoice (now : Int) (nd : Node) : CbChoice :=
  if nd.expired now then .expire
  else if nd.active then .act
  else .inact

/-- The callback selected by the shrink dispatch. -/
def dispatchCb (cbs : Callbacks) (now : Int) (nd : Node) :
    State → Nat → Option State :=
  if nd.expired now then cbs.onExpire
  else if nd.active then cbs.onActive
  else cbs.onInactive

/-- The loop of `func (l *lru) shrink`: while `toSize < l.size`, panic if
`cur` is the tail sentinel, in debug builds null `cur.prev`, dispatch
exactly one callback (expired, else active, else inactive), then advance to
the next pointer captured before the callback ran.  On exit the remaining
suffix is relinked after the head sentinel: `link(l.fakeHead, cur)`. -/
def shrinkLoop (dbg : Bool) (cbs : Callbacks) (toSize now : Int) (lid : Nat) :
    Nat → State → Nat → ShrinkResult
  | 0, _, _ => .outOfFuel
  | fuel + 1, s, cur =>
    if toSize < (s.lrus lid).size then
      if cur = (s.lrus lid).fakeTail then
        .panicked tailMsg s []
      else
        match dispatchCb cbs now (s.nodes cur)
            (if dbg then setNode s cur { s.nodes cur with prev := none } else s)
            cur with
        | none => .panicked nilMsg
            (if dbg then setNode s cur { s.nodes cur with prev := none } else s)
            [⟨cur, s.nodes cur, (s.lrus lid).size, dispatchChoice now (s.nodes cur)⟩]
        | some s2 =>
          match (s.nodes cur).next with
          | none => .panicked nilMsg s2
              [⟨cur, s.nodes cur, (s.lrus lid).size, dispatchChoice now (s.nodes cur)⟩]
          | some nx =>
            match shrinkLoop dbg cbs toSize now lid fuel s2 nx with
            | .ok s3 tr => .ok s3
                (⟨cur, s.nodes cur, (s.lrus lid).size,
                  dispatchChoice now (s.nodes cur)⟩ :: tr)
            | .panicked m s3 tr => .panicked m s3
                (⟨cur, s.nodes cur, (s.lrus lid).size,
                  dispatchChoice now (s.nodes cur)⟩ :: tr)
            | .outOfFuel => .outOfFuel
    else
      .ok (link s (s.lrus lid).fakeHead cur) []

/-- `func (l *lru) shrink(toSize int64, now int64)`: the negative-target
panic guard, then the walk starting at `l.head() = fakeHead.next`. -/
def shrink (dbg : Bool) (cbs : Callbacks) (toSize now : Int) (lid : Nat)
    (fuel : Nat) (s : State) : ShrinkResult :=
  if toSize < 0 then .panicked negMsg s []
  else
    match (s.nodes (s.lrus lid).fakeHead).next with
    | none => .panicked nilMsg s []
    | some h => shrinkLoop dbg cbs toSize now lid fuel s h

/-- Termination of a shrink run: some fuel suffices for the model to
return (normally or with a panic) rather than exhaust its fuel. -/
def shrinkTerminates (dbg : Bool) (cbs : Callbacks) (toSize now : Int)
    (lid : Nat) (s : State) : Prop :=
  ∃ fuel, shrink dbg cbs toSize now lid fuel s ≠ .outOfFuel

/-! ### Handler construction (`NewHandler`)

`NewHandler` creates a pool and panics when `pool.MaxChunkSize()` is below
`MaxCommandLength` (the protocol input buffer size).  The pool constructor
and the two constants are outside `src/`, so both sizes are parameters;
`none` models the panic. -/

/-- `func NewHandler()`: refuse to start when the pool's max chunk size is
less than the input buffer size. -/
def NewHandler (maxChunkSize maxCommandLength : Int) : Option Unit :=
  if maxChunkSize < maxCommandLength then none else some ()

/-! ### Protocol layer: `conn.set` (`conn.go`)

The parser, `Discard`, `readDataBlock`, `Flush` and the response writers
are collaborators of the modelled control flow; their outcomes are oracle
inputs, and the externally visible actions are recorded as events. -/

/-- Observable actions of a `conn.set` run. -/
inductive ConnEvent where
  | discardCommand
  | discardBytes (n : Int)
  | readDataBlock (n : Int)
  | cacheSet
  | flush
  | sendStored
deriving DecidableEq, Repr

/-- Client-error outcomes of a `conn.set` run. -/
inductive CErr where
  | parseFieldsErr
  | tooLargeItem
  | readBlockErr
deriving DecidableEq, Repr

/-- Outcome of a `conn.set` run: events performed in order, the client
error reported (if any), and whether a server-side error was returned. -/
structure SetOutcome where
  events : List ConnEvent
  clientErr : Option CErr
  err : Bool
deriving DecidableEq, Repr

/-- `func (c *conn) set(fields [][]byte) (clientErr, err error)`.
`parse` is the `parseSetFields` result: `none` for a client error, else
`some (bytes, noreply)` where `bytes` is the declared value length
`i.Bytes`.  `discardErr`, `readClientErr`, `readErr`, `flushErr`,
`sendErr` are the oracle outcomes of the called collaborators. -/
def connSet (maxItemSize sepLen : Int) (parse : Option (Int × Bool))
    (discardErr readClientErr readErr flushErr sendErr : Bool) : SetOutcome :=
  match parse with
  | none => ⟨[.discardCommand], some .parseFieldsErr, discardErr⟩
  | some (bytes, noreply) =>
    if maxItemSize < bytes then
      ⟨[.discardBytes (bytes + sepLen)], some .tooLargeItem, discardErr⟩
    else
      if readErr || readClientErr then
        ⟨[.readDataBlock bytes],
         if readClientErr then some .readBlockErr else none, readErr⟩
      else
        if noreply then
          ⟨[.readDataBlock bytes, .cacheSet, .flush], none, flushErr⟩
        else
          ⟨[.readDataBlock bytes, .cacheSet, .sendStored], none, sendErr⟩

/-! ### Protocol layer: `conn.sendGetResponse` (`conn.go`)

The function streams each view and closes its reader; a deferred loop
closes every reader from the current `readerIndex` on at return time.
`errAt i` tells whether the checked `WriteString(Separator)` after
streaming view `i` fails. -/

/-- Observable actions of a `sendGetResponse` run on the views. -/
inductive GetEvent where
  | writeTo (i : Nat)
  | close (i : Nat)
deriving DecidableEq, Repr

/-- The `for ; readerIndex < len(views); readerIndex++` loop together with
the deferred cleanup, iterated over the remaining view indices: on a write
error the function returns and the deferred loop closes every view from
the current index on; otherwise the view is closed and the loop advances. -/
def sendLoop (errAt : Nat → Bool) : List Nat → List GetEvent
  | [] => []
  | i :: rest =>
    .writeTo i ::
      (if errAt i then (i :: rest).map .close
       else .close i :: sendLoop errAt rest)

/-- `func (c *conn) sendGetResponse(views []cache.ItemView) error`,
projected to the reader events on views `0 .. n-1`. -/
def sendGetResponse (errAt : Nat → Bool) (n : Nat) : List GetEvent :=
  sendLoop errAt (List.range n)

/-! ### Basic heap lemmas -/

theorem updFun_self {α : Type} (f : Nat → α) (i : Nat) (v : α) :
    updFun f i v i = v := by
  simp [updFun]

theorem updFun_ne {α : Type} (f : Nat → α) {i j : Nat} (h : j ≠ i) (v : α) :
    updFun f i v j = f j := by
  simp [updFun, h]

@[simp] theorem setNode_lrus (s : State) (i : Nat) (nd : Node) :
    (setNode s i nd).lrus = s.lrus := rfl

@[simp] theorem setLru_nodes (s : State) (i : Nat) (l : Lru) :
    (setLru s i l).nodes = s.nodes := rfl

@[simp] theorem link_lrus (s : State) (a b : Nat) :
    (link s a b).lrus = s.lrus := rfl

theorem setNode_nodes_self (s : State) (i : Nat) (nd : Node) :
    (setNode s i nd).nodes i = nd := by
  simp [setNode, updFun]

theorem setNode_nodes_ne (s : State) {i j : Nat} (nd : Node) (h : j ≠ i) :
    (setNode s i nd).nodes j = s.nodes j := by
  simp [setNode, updFun, h]

theorem setLru_lrus_self (s : State) (i : Nat) (l : Lru) :
    (setLru s i l).lrus i = l := by
  simp [setLru, updFun]

theorem setLru_lrus_ne (s : State) {i j : Nat} (l : Lru) (h : j ≠ i) :
    (setLru s i l).lrus j = s.lrus j := by
  simp [setLru, updFun, h]

theorem link_next_left (s : State) (a b : Nat) :
    ((link s a b).nodes a).next = some b := by
  by_cases hab : a = b <;> simp [link, setNode, updFun, hab]

theorem link_prev_right (s : State) (a b : Nat) :
    ((link s a b).nodes b).prev = some a := by
  unfold link
  rw [setNode_nodes_self]

theorem link_nodes_outside (s : State) (a b : Nat) {m : Nat}
    (hma : m ≠ a) (hmb : m ≠ b) : (link s a b).nodes m = s.nodes m := by
  unfold link
  rw [setNode_nodes_ne _ _ hmb, setNode_nodes_ne _ _ hma]

theorem link_next_outside (s : State) (a b : Nat) {m : Nat} (hma : m ≠ a) :
    ((link s a b).nodes m).next = (s.nodes m).next := by
  unfold link
  by_cases hmb : m = b
  · subst hmb
    rw [setNode_nodes_self]
    simp [setNode_nodes_ne _ _ hma]
  · rw [setNode_nodes_ne _ _ hmb, setNode_nodes_ne _ _ hma]

theorem link_prev_outside (s : State) (a b : Nat) {m : Nat} (hmb : m ≠ b) :
    ((link s a b).nodes m).prev = (s.nodes m).prev := by
  unfold link
  rw [setNode_nodes_ne _ _ hmb]
  by_cases hma : m = a
  · subst hma
    rw [setNode_nodes_self]
  · rw [setNode_nodes_ne _ _ hma]

theorem link_nodes_left (s : State) (a b : Nat) (hab : a ≠ b) :
    (link s a b).nodes a = { s.nodes a with next := some b } := by
  unfold link
  rw [setNode_nodes_ne _ _ hab, setNode_nodes_self]

theorem link_nodes_right (s : State) (a b : Nat) (hab : a ≠ b) :
    (link s a b).nodes b = { s.nodes b with prev := some a } := by
  unfold link
  rw [setNode_nodes_self, setNode_nodes_ne _ _ (Ne.symm hab)]

theorem link_nodes_same (s : State) (a : Nat) :
    (link s a a).nodes a = { s.nodes a with prev := some a, next := some a } := by
  unfold link
  rw [setNode_nodes_self, setNode_nodes_self]

theorem link_owner (s : State) (a b m : Nat) :
    ((link s a b).nodes m).owner = (s.nodes m).owner := by
  unfold link
  by_cases hmb : m = b
  · subst hmb
    rw [setNode_nodes_self]
    by_cases hma : m = a
    · subst hma
      rw [setNode_nodes_self]
    · rw [setNode_nodes_ne _ _ hma]
  · rw [setNode_nodes_ne _ _ hmb]
    by_cases hma : m = a
    · subst hma
      rw [setNode_nodes_self]
    · rw [setNode_nodes_ne _ _ hma]

theorem link_active (s : State) (a b m : Nat) :
    ((link s a b).nodes m).active = (s.nodes m).active := by
  unfold link
  by_cases hmb : m = b
  · subst hmb
    rw [setNode_nodes_self]
    by_cases hma : m = a
    · subst hma
      rw [setNode_nodes_self]
    · rw [setNode_nodes_ne _ _ hma]
  · rw [setNode_nodes_ne _ _ hmb]
    by_cases hma : m = a
    · subst hma
      rw [setNode_nodes_self]
    · rw [setNode_nodes_ne _ _ hma]

theorem link_size_node (s : State) (a b m : Nat) :
    ((link s a b).nodes m).size = (s.nodes m).size := by
  unfold link Node.size
  by_cases hmb : m = b
  · subst hmb
    rw [setNode_nodes_self]
    by_cases hma : m = a
    · subst hma
      rw [setNode_nodes_self]
    · rw [setNode_nodes_ne _ _ hma]
  · rw [setNode_nodes_ne _ _ hmb]
    by_cases hma : m = a
    · subst hma
      rw [setNode_nodes_self]
    · rw [setNode_nodes_ne _ _ hma]

theorem link_expiry (s : State) (a b m : Nat) :
    ((link s a b).nodes m).expiry = (s.nodes m).expiry := by
  unfold link
  by_cases hmb : m = b
  · subst hmb
    rw [setNode_nodes_self]
    by_cases hma : m = a
    · subst hma
      rw [setNode_nodes_self]
    · rw [setNode_nodes_ne _ _ hma]
  · rw [setNode_nodes_ne _ _ hmb]
    by_cases hma : m = a
    · subst hma
      rw [setNode_nodes_self]
    · rw [setNode_nodes_ne _ _ hma]

/-! ### List well-formedness -/

/-- Forward adjacency: `a`'s next pointer is `b`. -/
def NextR (s : State) (a b : Nat) : Prop := (s.nodes a).next = some b

/-- Backward adjacency: `b`'s prev pointer is `a`. -/
def PrevR (s : State) (a b : Nat) : Prop := (s.nodes b).prev = some a

/-- Sum of `node.size()` over a list of node ids. -/
def sumSizes (s : State) (ids : List Nat) : Int :=
  (ids.map (fun n => (s.nodes n).size)).sum

theorem sumSizes_nil (s : State) : sumSizes s [] = 0 := rfl

theorem sumSizes_cons (s : State) (n : Nat) (ids : List Nat) :
    sumSizes s (n :: ids) = (s.nodes n).size + sumSizes s ids := by
  simp [sumSizes]

theorem sumSizes_append (s : State) (l1 l2 : List Nat) :
    sumSizes s (l1 ++ l2) = sumSizes s l1 + sumSizes s l2 := by
  simp [sumSizes]

theorem sumSizes_congr (s s1 : State) (ids : List Nat)
    (h : ∀ a ∈ ids, (s1.nodes a).size = (s.nodes a).size) :
    sumSizes s1 ids = sumSizes s ids := by
  unfold sumSizes
  induction ids with
  | nil => rfl
  | cons x l ih =>
    simp only [List.map_cons, List.sum_cons]
    rw [h x (List.mem_cons_self x l), ih (fun a ha => h a (List.mem_cons_of_mem x ha))]

/-- Transfer a chain between two relations that agree on every pair whose
first element is not the last of the list and whose second element is not
the head (which is the case for every adjacent pair). -/
theorem chain'_congr_adj {R S : Nat → Nat → Prop} :
    ∀ l : List Nat,
      (∀ a ∈ l.dropLast, ∀ b ∈ l.tail, R a b → S a b) →
      l.Chain' R → l.Chain' S := by
  intro l
  induction l with
  | nil => intro _ _; exact List.chain'_nil
  | cons x l ih =>
    intro h hc
    rw [List.chain'_cons'] at hc ⊢
    cases l with
    | nil => exact ⟨by simp, List.chain'_nil⟩
    | cons y l2 =>
      refine ⟨?_, ?_⟩
      · intro z hz
        simp only [List.head?_cons, Option.mem_def, Option.some.injEq] at hz
        subst hz
        exact h x (by simp) y (by simp) (hc.1 y (by simp))
      · refine ih ?_ hc.2
        intro a ha b hb hr
        refine h a ?_ b ?_ hr
        · simp only [List.dropLast_cons₂]
          exact List.mem_cons_of_mem x ha
        · simp only [List.tail_cons] at hb ⊢
          exact List.mem_cons_of_mem y hb

/-- Rest-state invariants of an lru list (the source's comment block over
`type lru`): both sentinels present and distinct from the owned nodes, the
prev/next chain well-formed in both directions, every owned node's owner
field pointing at the list, and the size counter equal to the sum of the
owned node sizes.  `ids` is the list of owned node ids in head-to-tail
order. -/
structure ListInv (s : State) (lid : Nat) (ids : List Nat) : Prop where
  nodup : (((s.lrus lid).fakeHead :: ids) ++ [(s.lrus lid).fakeTail]).Nodup
  nextOk : (((s.lrus lid).fakeHead :: ids) ++ [(s.lrus lid).fakeTail]).Chain' (NextR s)
  prevOk : (((s.lrus lid).fakeHead :: ids) ++ [(s.lrus lid).fakeTail]).Chain' (PrevR s)
  ownerOk : ∀ n ∈ ids, (s.nodes n).owner = some lid
  sizeOk : (s.lrus lid).size = sumSizes s ids

/-- Full-cell frame transfer of `ListInv`. -/
theorem ListInv_congr (s s1 : State) (lid : Nat) (ids : List Nat)
    (hinv : ListInv s lid ids)
    (hlru : s1.lrus lid = s.lrus lid)
    (hnodes : ∀ a ∈ ((s.lrus lid).fakeHead :: ids) ++ [(s.lrus lid).fakeTail],
      s1.nodes a = s.nodes a) :
    ListInv s1 lid ids := by
  obtain ⟨hnd, hnx, hpv, how, hsz⟩ := hinv
  refine ⟨?_, ?_, ?_, ?_, ?_⟩
  · rw [hlru]; exact hnd
  · rw [hlru]
    refine chain'_congr_adj _ ?_ hnx
    intro a ha b _ hr
    unfold NextR at hr ⊢
    rw [hnodes a (List.mem_of_mem_dropLast ha)]
    exact hr
  · rw [hlru]
    refine chain'_congr_adj _ ?_ hpv
    intro a _ b hb hr
    unfold PrevR at hr ⊢
    rw [hnodes b (List.mem_of_mem_tail hb)]
    exact hr
  · intro n hn
    rw [hnodes n (by simp [hn])]
    exact how n hn
  · rw [hlru, hsz]
    exact (sumSizes_congr s s1 ids
      (fun a ha => by rw [hnodes a (by simp [ha])])).symm

/-- Exact effect of `disown` when the node has an owner. -/
theorem disown_spec (dbg : Bool) (s : State) (n lid : Nat)
    (how : (s.nodes n).owner = some lid) :
    ∃ s1, disown dbg s n = some s1 ∧
      ((s1.nodes n).prev = (s.nodes n).prev) ∧
      ((s1.nodes n).next = (s.nodes n).next) ∧
      ((s1.nodes n).active = (s.nodes n).active) ∧
      ((s1.nodes n).expiry = (s.nodes n).expiry) ∧
      ((s1.nodes n).size = (s.nodes n).size) ∧
      (dbg = false → s1.nodes n = s.nodes n) ∧
      (dbg = true → (s1.nodes n).owner = none) ∧
      (∀ m, m ≠ n → s1.nodes m = s.nodes m) ∧
      (s1.lrus lid = { s.lrus lid with
        size := (s.lrus lid).size - (s.nodes n).size }) ∧
      (∀ l2, l2 ≠ lid → s1.lrus l2 = s.lrus l2) := by
  refine ⟨_, by rw [disown, how], ?_, ?_, ?_, ?_, ?_, ?_, ?_, ?_, ?_, ?_⟩
  · cases dbg
    · simp
    · simp only [if_true]
      rw [setNode_nodes_self]
      simp [setLru]
  · cases dbg
    · simp
    · simp only [if_true]
      rw [setNode_nodes_self]
      simp [setLru]
  · cases dbg
    · simp
    · simp only [if_true]
      rw [setNode_nodes_self]
      simp [setLru]
  · cases dbg
    · simp
    · simp only [if_true]
      rw [setNode_nodes_self]
      simp [setLru]
  · cases dbg
    · simp
    · simp only [if_true]
      rw [setNode_nodes_self]
      simp [Node.size]
  · intro hdbg
    subst hdbg
    simp
  · intro hdbg
    subst hdbg
    simp only [if_true]
    rw [setNode_nodes_self]
  · intro m hmn
    cases dbg
    · simp
    · simp only [if_true]
      rw [setNode_nodes_ne _ _ hmn]
      simp
  · cases dbg <;> simp [setLru_lrus_self]
  · intro l2 hl2
    cases dbg <;> simp [setLru_lrus_ne _ _ hl2]

/-- Exact effect of `pushBack` when the destination tail sentinel has a
prev pointer and the spliced node, the old tail and the tail sentinel are
pairwise distinct. -/
theorem pushBack_spec (s : State) (lid n t : Nat)
    (ht : (s.nodes (s.lrus lid).fakeTail).prev = some t)
    (hn3 : n ≠ (s.lrus lid).fakeTail) (htn : t ≠ n)
    (htf : t ≠ (s.lrus lid).fakeTail) :
    ∃ s5, pushBack s lid n = some s5 ∧
      s5.nodes n = { s.nodes n with
                     owner := some lid, active := false,
                     prev := some t, next := some (s.lrus lid).fakeTail } ∧
      s5.nodes t = { s.nodes t with next := some n } ∧
      s5.nodes (s.lrus lid).fakeTail =
        { s.nodes (s.lrus lid).fakeTail with prev := some n } ∧
      (∀ m, m ≠ n → m ≠ t → m ≠ (s.lrus lid).fakeTail →
        s5.nodes m = s.nodes m) ∧
      (∀ m, (s5.nodes m).size = (s.nodes m).size) ∧
      s5.lrus lid = { s.lrus lid with
        size := (s.lrus lid).size + (s.nodes n).size } ∧
      (∀ l2, l2 ≠ lid → s5.lrus l2 = s.lrus l2) := by
  have hnt : n ≠ t := Ne.symm htn
  have hfn : (s.lrus lid).fakeTail ≠ n := Ne.symm hn3
  have hft : (s.lrus lid).fakeTail ≠ t := Ne.symm htf
  have key : pushBack s lid n = some
      (link (link (setNode (setLru (setNode s n { s.nodes n with owner := some lid })
          lid { s.lrus lid with size := (s.lrus lid).size + (s.nodes n).size })
          n { s.nodes n with owner := some lid, active := false }) t n)
        n (s.lrus lid).fakeTail) := by
    unfold pushBack attachAsInactive
    simp only [setLru_nodes, setNode_nodes_self, setNode_lrus, link_lrus,
      setLru_lrus_self, setNode_nodes_ne _ _ hfn, ht, Node.size]
  refine ⟨_, key, ?_, ?_, ?_, ?_, ?_, ?_, ?_⟩
  · rw [link_nodes_left _ _ _ hn3, link_nodes_right _ _ _ htn,
      setNode_nodes_self]
  · rw [link_nodes_outside _ _ _ htn htf, link_nodes_left _ _ _ htn,
      setNode_nodes_ne _ _ htn, setLru_nodes, setNode_nodes_ne _ _ htn]
  · rw [link_nodes_right _ _ _ hn3,
      link_nodes_outside _ _ _ hft hfn,
      setNode_nodes_ne _ _ hfn, setLru_nodes, setNode_nodes_ne _ _ hfn]
  · intro m hmn hmt hmf
    rw [link_nodes_outside _ _ _ hmn hmf, link_nodes_outside _ _ _ hmt hmn,
      setNode_nodes_ne _ _ hmn, setLru_nodes, setNode_nodes_ne _ _ hmn]
  · intro m
    rw [link_size_node, link_size_node]
    by_cases hmn : m = n
    · subst hmn
      rw [setNode_nodes_self]
      simp [Node.size]
    · rw [setNode_nodes_ne _ _ hmn, setLru_nodes, setNode_nodes_ne _ _ hmn]
  · simp [setLru_lrus_self]
  · intro l2 hl2
    simp [setLru_lrus_ne _ _ hl2]

/-- `pushBack` always succeeds when the destination tail sentinel has a
prev pointer; independently of aliasing, the destination size grows by the
node's size and no node's size changes. -/
theorem pushBack_size_only (s : State) (lid n t : Nat)
    (ht : (s.nodes (s.lrus lid).fakeTail).prev = some t)
    (hn3 : n ≠ (s.lrus lid).fakeTail) :
    ∃ s5, pushBack s lid n = some s5 ∧
      s5.lrus lid = { s.lrus lid with
        size := (s.lrus lid).size + (s.nodes n).size } ∧
      (∀ l2, l2 ≠ lid → s5.lrus l2 = s.lrus l2) ∧
      (∀ m, (s5.nodes m).size = (s.nodes m).size) ∧
      ((s5.nodes n).active = false) ∧
      ((s5.nodes n).owner = some lid) ∧
      ((s5.nodes n).next = some (s.lrus lid).fakeTail) := by
  have hfn : (s.lrus lid).fakeTail ≠ n := Ne.symm hn3
  have key : pushBack s lid n = some
      (link (link (setNode (setLru (setNode s n { s.nodes n with owner := some lid })
          lid { s.lrus lid with size := (s.lrus lid).size + (s.nodes n).size })
          n { s.nodes n with owner := some lid, active := false }) t n)
        n (s.lrus lid).fakeTail) := by
    unfold pushBack attachAsInactive
    simp only [setLru_nodes, setNode_nodes_self, setNode_lrus, link_lrus,
      setLru_lrus_self, setNode_nodes_ne _ _ hfn, ht, Node.size]
  refine ⟨_, key, ?_, ?_, ?_, ?_, ?_, ?_⟩
  · simp [setLru_lrus_self]
  · intro l2 hl2
    simp [setLru_lrus_ne _ _ hl2]
  · intro m
    rw [link_size_node, link_size_node]
    by_cases hmn : m = n
    · subst hmn
      rw [setNode_nodes_self]
      simp [Node.size]
    · rw [setNode_nodes_ne _ _ hmn, setLru_nodes, setNode_nodes_ne _ _ hmn]
  · rw [link_active, link_active, setNode_nodes_self]
  · rw [link_owner, link_owner, setNode_nodes_self]
  · rw [link_next_left]

theorem getLast_not_mem_dropLast (l : List Nat) (h : l ≠ []) (hnd : l.Nodup) :
    l.getLast h ∉ l.dropLast := by
  intro hmem
  have heq : l.dropLast ++ [l.getLast h] = l := List.dropLast_append_getLast h
  rw [← heq] at hnd
  rw [List.nodup_append] at hnd
  exact hnd.2.2 hmem (List.mem_singleton_self _)

/-- The prev pointer of the tail sentinel of a well-formed list is the last
element of the head-sentinel-plus-owned chain. -/
theorem listInv_tail_prev (s : State) (lid : Nat) (ids : List Nat)
    (hinv : ListInv s lid ids) :
    (s.nodes (s.lrus lid).fakeTail).prev =
      some (((s.lrus lid).fakeHead :: ids).getLast (by simp)) := by
  have hpv := hinv.prevOk
  rw [List.chain'_append] at hpv
  have hlast : ((s.lrus lid).fakeHead :: ids).getLast? =
      some (((s.lrus lid).fakeHead :: ids).getLast (by simp)) :=
    List.getLast?_eq_getLast _ (by simp)
  exact hpv.2.2 _ hlast _ rfl

/-- `pushBack` on a well-formed list with a fresh node: succeeds, keeps the
list well-formed with the node appended as the last owned node, grows the
size by the node's size, clears the node's active bit, sets its owner, and
splices it immediately before the tail sentinel. -/
theorem pushBack_listInv (s : State) (lid : Nat) (ids : List Nat) (n : Nat)
    (hinv : ListInv s lid ids)
    (hn1 : n ∉ ids) (hn2 : n ≠ (s.lrus lid).fakeHead)
    (hn3 : n ≠ (s.lrus lid).fakeTail) :
    ∃ s5, pushBack s lid n = some s5 ∧
      ListInv s5 lid (ids ++ [n]) ∧
      s5.lrus lid = { s.lrus lid with
        size := (s.lrus lid).size + (s.nodes n).size } ∧
      (∀ l2, l2 ≠ lid → s5.lrus l2 = s.lrus l2) ∧
      ((s5.nodes n).owner = some lid) ∧
      ((s5.nodes n).active = false) ∧
      ((s5.nodes n).next = some (s.lrus lid).fakeTail) ∧
      ((s5.nodes (s.lrus lid).fakeTail).prev = some n) ∧
      (∀ m, (s5.nodes m).size = (s.nodes m).size) ∧
      (∀ m, m ∉ (((s.lrus lid).fakeHead :: ids) ++ [(s.lrus lid).fakeTail]) →
        m ≠ n → s5.nodes m = s.nodes m) := by
  have hfh : (s.lrus lid).fakeHead ∉ ids ++ [(s.lrus lid).fakeTail] :=
    (List.nodup_cons.mp hinv.nodup).1
  have hftni : (s.lrus lid).fakeTail ∉ (s.lrus lid).fakeHead :: ids := by
    intro hmem
    have := hinv.nodup
    rw [List.nodup_append] at this
    exact this.2.2 hmem (List.mem_singleton_self _)
  set fh := (s.lrus lid).fakeHead with hfhdef
  set ft := (s.lrus lid).fakeTail with hftdef
  set t := ((fh :: ids).getLast (by simp)) with htdef
  have ht : (s.nodes ft).prev = some t := listInv_tail_prev s lid ids hinv
  have htmem : t ∈ fh :: ids := List.getLast_mem _
  have htn : t ≠ n := by
    intro hteq
    subst hteq
    rcases List.mem_cons.mp htmem with h | h
    · exact hn2 h
    · exact hn1 h
  have htf : t ≠ ft := by
    intro hteq
    exact hftni (hteq ▸ htmem)
  obtain ⟨s5, hpb, hcn, hct, hcf, hframe, hsizes, hlru, hlru2⟩ :=
    pushBack_spec s lid n t ht hn3 htn htf
  have hlruft : (s5.lrus lid).fakeTail = ft := by rw [hlru]
  have hlrufh : (s5.lrus lid).fakeHead = fh := by rw [hlru]
  have hchainframe : ∀ m, m ∈ fh :: ids → m ≠ t → s5.nodes m = s.nodes m := by
    intro m hm hmt
    refine hframe m ?_ hmt ?_
    · intro hmeq
      subst hmeq
      rcases List.mem_cons.mp hm with h | h
      · exact hn2 h
      · exact hn1 h
    · intro hmeq
      rw [← hftdef] at hmeq
      apply hftni
      rw [← hmeq]
      exact hm
  have hprevframe : ∀ m, m ∈ fh :: ids → (s5.nodes m).prev = (s.nodes m).prev := by
    intro m hm
    by_cases hmt : m = t
    · subst hmt
      rw [hct]
    · rw [hchainframe m hm hmt]
  have hnextframe : ∀ m, m ∈ fh :: ids → m ≠ t →
      (s5.nodes m).next = (s.nodes m).next := by
    intro m hm hmt
    rw [hchainframe m hm hmt]
  have hownerframe : ∀ m, m ∈ fh :: ids → (s5.nodes m).owner = (s.nodes m).owner := by
    intro m hm
    by_cases hmt : m = t
    · subst hmt
      rw [hct]
    · rw [hchainframe m hm hmt]
  have hnmem : n ∉ (fh :: ids) ++ [ft] := by
    intro hmem
    rcases List.mem_append.mp hmem with h | h
    · rcases List.mem_cons.mp h with h | h
      · exact hn2 h
      · exact hn1 h
    · exact hn3 (List.mem_singleton.mp h)
  have hnd5 : ((fh :: (ids ++ [n])) ++ [ft]).Nodup := by
    have heq : (fh :: (ids ++ [n])) ++ [ft] = (fh :: ids) ++ n :: [ft] := by simp
    rw [heq]
    have hperm : ((fh :: ids) ++ n :: [ft]).Perm (n :: ((fh :: ids) ++ [ft])) :=
      List.perm_middle
    rw [hperm.nodup_iff]
    exact List.nodup_cons.mpr ⟨hnmem, hinv.nodup⟩
  have hnogetlast : t ∉ (fh :: ids).dropLast :=
    getLast_not_mem_dropLast _ (by simp) (List.Nodup.of_append_left hinv.nodup)
  have hnx5 : ((fh :: (ids ++ [n])) ++ [ft]).Chain' (NextR s5) := by
    have hsplit : (fh :: (ids ++ [n])) ++ [ft] = (fh :: ids) ++ [n, ft] := by simp
    rw [hsplit, List.chain'_append]
    refine ⟨?_, ?_, ?_⟩
    · have hold : (fh :: ids).Chain' (NextR s) :=
        (List.chain'_append.mp hinv.nextOk).1
      refine chain'_congr_adj _ ?_ hold
      intro a ha b _ hr
      unfold NextR at hr ⊢
      have hat : a ≠ t := by
        intro haeq; subst haeq; exact hnogetlast ha
      rw [hnextframe a (List.mem_of_mem_dropLast ha) hat]
      exact hr
    · rw [List.chain'_cons]
      refine ⟨?_, List.chain'_singleton _⟩
      unfold NextR
      rw [hcn]
    · intro x hx y hy
      have hxt : x = t := by
        rw [List.getLast?_eq_getLast _ (by simp)] at hx
        simp only [Option.mem_def, Option.some.injEq] at hx
        exact hx.symm
      have hyn : y = n := by
        simp only [List.head?_cons, Option.mem_def, Option.some.injEq] at hy
        exact hy.symm
      subst hxt
      subst hyn
      unfold NextR
      rw [hct]
  have hpv5 : ((fh :: (ids ++ [n])) ++ [ft]).Chain' (PrevR s5) := by
    have hsplit : (fh :: (ids ++ [n])) ++ [ft] = (fh :: ids) ++ [n, ft] := by simp
    rw [hsplit, List.chain'_append]
    refine ⟨?_, ?_, ?_⟩
    · have hold : (fh :: ids).Chain' (PrevR s) :=
        (List.chain'_append.mp hinv.prevOk).1
      refine chain'_congr_adj _ ?_ hold
      intro a _ b hb hr
      unfold PrevR at hr ⊢
      rw [hprevframe b (List.mem_of_mem_tail hb)]
      exact hr
    · rw [List.chain'_cons]
      refine ⟨?_, List.chain'_singleton _⟩
      unfold PrevR
      rw [hcf]
    · intro x hx y hy
      have hxt : x = t := by
        rw [List.getLast?_eq_getLast _ (by simp)] at hx
        simp only [Option.mem_def, Option.some.injEq] at hx
        exact hx.symm
      have hyn : y = n := by
        simp only [List.head?_cons, Option.mem_def, Option.some.injEq] at hy
        exact hy.symm
      subst hxt
      subst hyn
      unfold PrevR
      rw [hcn]
  refine ⟨s5, hpb, ?_, hlru, hlru2, ?_, ?_, ?_, ?_, hsizes, ?_⟩
  · refine ⟨?_, ?_, ?_, ?_, ?_⟩
    · rw [hlrufh, hlruft]
      exact hnd5
    · rw [hlrufh, hlruft]
      exact hnx5
    · rw [hlrufh, hlruft]
      exact hpv5
    · intro m hm
      rcases List.mem_append.mp hm with hmi | hmn
      · by_cases hmt : m = t
        · rw [hmt, hct]
          show (s.nodes t).owner = some lid
          rw [← hmt]
          exact hinv.ownerOk m hmi
        · rw [hchainframe m (List.mem_cons_of_mem _ hmi) hmt]
          exact hinv.ownerOk m hmi
      · have : m = n := List.mem_singleton.mp hmn
        subst this
        rw [hcn]
    · rw [hlru]
      show (s.lrus lid).size + (s.nodes n).size = sumSizes s5 (ids ++ [n])
      rw [hinv.sizeOk, sumSizes_congr s s5 _ (fun a _ => hsizes a),
        sumSizes_append, sumSizes_cons, sumSizes_nil]
      ring
  · rw [hcn]
  · rw [hcn]
  · rw [hcn, hftdef]
  · rw [hcf]
  · intro m hm hmn
    refine hframe m hmn ?_ ?_
    · intro hmt
      apply hm
      rw [hmt]
      rcases List.mem_cons.mp htmem with h | h
      · simp [h]
      · simp [h]
    · intro hmf
      apply hm
      rw [hmf, ← hftdef]
      simp

/-! ### Unfolding lemmas for the shrink loop -/

theorem shrinkLoop_zero (dbg : Bool) (cbs : Callbacks) (toSize now : Int)
    (lid : Nat) (s : State) (cur : Nat) :
    shrinkLoop dbg cbs toSize now lid 0 s cur = .outOfFuel := rfl

theorem shrinkLoop_exit (dbg : Bool) (cbs : Callbacks) (toSize now : Int)
    (lid : Nat) (fuel : Nat) (s : State) (cur : Nat)
    (hsz : ¬ toSize < (s.lrus lid).size) :
    shrinkLoop dbg cbs toSize now lid (fuel + 1) s cur =
      .ok (link s (s.lrus lid).fakeHead cur) [] := by
  rw [shrinkLoop]
  simp only [if_neg hsz]

theorem shrinkLoop_tail_panic (dbg : Bool) (cbs : Callbacks) (toSize now : Int)
    (lid : Nat) (fuel : Nat) (s : State) (cur : Nat)
    (hsz : toSize < (s.lrus lid).size) (htail : cur = (s.lrus lid).fakeTail) :
    shrinkLoop dbg cbs toSize now lid (fuel + 1) s cur =
      .panicked tailMsg s [] := by
  rw [shrinkLoop]
  simp only [if_pos hsz, if_pos htail]

theorem shrinkLoop_step (dbg : Bool) (cbs : Callbacks) (toSize now : Int)
    (lid : Nat) (fuel : Nat) (s : State) (cur : Nat) (s2 : State) (nx : Nat)
    (hsz : toSize < (s.lrus lid).size) (htail : ¬ cur = (s.lrus lid).fakeTail)
    (hcb : dispatchCb cbs now (s.nodes cur)
      (if dbg then setNode s cur { s.nodes cur with prev := none } else s) cur
        = some s2)
    (hnx : (s.nodes cur).next = some nx) :
    shrinkLoop dbg cbs toSize now lid (fuel + 1) s cur =
      match shrinkLoop dbg cbs toSize now lid fuel s2 nx with
      | .ok s3 tr => .ok s3
          (⟨cur, s.nodes cur, (s.lrus lid).size, dispatchChoice now (s.nodes cur)⟩ :: tr)
      | .panicked m s3 tr => .panicked m s3
          (⟨cur, s.nodes cur, (s.lrus lid).size, dispatchChoice now (s.nodes cur)⟩ :: tr)
      | .outOfFuel => .outOfFuel := by
  rw [shrinkLoop]
  rw [if_pos hsz, if_neg htail, hcb, hnx]

theorem shrinkLoop_cb_panic (dbg : Bool) (cbs : Callbacks) (toSize now : Int)
    (lid : Nat) (fuel : Nat) (s : State) (cur : Nat)
    (hsz : toSize < (s.lrus lid).size) (htail : ¬ cur = (s.lrus lid).fakeTail)
    (hcb : dispatchCb cbs now (s.nodes cur)
      (if dbg then setNode s cur { s.nodes cur with prev := none } else s) cur
        = none) :
    shrinkLoop dbg cbs toSize now lid (fuel + 1) s cur =
      .panicked nilMsg
        (if dbg then setNode s cur { s.nodes cur with prev := none } else s)
        [⟨cur, s.nodes cur, (s.lrus lid).size, dispatchChoice now (s.nodes cur)⟩] := by
  rw [shrinkLoop]
  rw [if_pos hsz, if_neg htail, hcb]

theorem shrinkLoop_nilnext_panic (dbg : Bool) (cbs : Callbacks) (toSize now : Int)
    (lid : Nat) (fuel : Nat) (s : State) (cur : Nat) (s2 : State)
    (hsz : toSize < (s.lrus lid).size) (htail : ¬ cur = (s.lrus lid).fakeTail)
    (hcb : dispatchCb cbs now (s.nodes cur)
      (if dbg then setNode s cur { s.nodes cur with prev := none } else s) cur
        = some s2)
    (hnx : (s.nodes cur).next = none) :
    shrinkLoop dbg cbs toSize now lid (fuel + 1) s cur =
      .panicked nilMsg s2
        [⟨cur, s.nodes cur, (s.lrus lid).size, dispatchChoice now (s.nodes cur)⟩] := by
  rw [shrinkLoop]
  rw [if_pos hsz, if_neg htail, hcb, hnx]

/-- The dispatch always selects one of the three configured callbacks. -/
theorem dispatchCb_mem (cbs : Callbacks) (now : Int) (nd : Node) :
    dispatchCb cbs now nd = cbs.onExpire ∨
    dispatchCb cbs now nd = cbs.onActive ∨
    dispatchCb cbs now nd = cbs.onInactive := by
  unfold dispatchCb
  by_cases he : nd.expired now
  · simp [he]
  · by_cases ha : nd.active <;> simp [he, ha]

/-! ### C6: effects of pushBack -/

/-- C6: `pushBack` on a well-formed list with a fresh node sets the node's
owner to the list, grows the list's size by exactly the node's size, clears
the node's active bit, and splices the node immediately before the tail
sentinel, making it the last owned node. -/
theorem pushBack_effects (s : State) (lid : Nat) (ids : List Nat) (n : Nat)
    (hinv : ListInv s lid ids) (hn1 : n ∉ ids)
    (hn2 : n ≠ (s.lrus lid).fakeHead) (hn3 : n ≠ (s.lrus lid).fakeTail) :
    ∃ s5, pushBack s lid n = some s5 ∧
      (s5.nodes n).owner = some lid ∧
      (s5.lrus lid).size = (s.lrus lid).size + (s.nodes n).size ∧
      (s5.nodes n).active = false ∧
      (s5.nodes n).next = some (s.lrus lid).fakeTail ∧
      (s5.nodes (s.lrus lid).fakeTail).prev = some n ∧
      ListInv s5 lid (ids ++ [n]) := by
  obtain ⟨s5, h1, h2, h3, _, h5, h6, h7, h8, _, _⟩ :=
    pushBack_listInv s lid ids n hinv hn1 hn2 hn3
  refine ⟨s5, h1, h5, ?_, h6, h7, h8, h2⟩
  rw [h3]

/-- A tiny state used by concrete witnesses: one real node (id 2) between
the head sentinel (id 0) and the tail sentinel (id 1) of list 0. -/
def oneNodeState : State where
  nodes := fun i =>
    if i = 0 then ⟨0, 0, none, false, none, none, some 2⟩
    else if i = 1 then ⟨0, 0, none, false, none, some 2, none⟩
    else if i = 2 then ⟨0, 0, none, false, some 0, some 0, some 1⟩
    else ⟨0, 0, none, false, none, none, none⟩
  lrus := fun _ => ⟨256, 0, 1⟩

/-- Callbacks that drop (disown) every walked node, without debug writes. -/
def dropAllCbs : Callbacks :=
  ⟨dropNode false, dropNode false, dropNode false⟩

/-- A concrete well-formed one-node list used by witnesses. -/
theorem oneNode_listInv : ListInv oneNodeState 0 [2] := by
  refine ⟨?_, ?_, ?_, ?_, ?_⟩
  · decide
  · simp [List.chain'_cons, List.chain'_singleton, NextR, oneNodeState]
  · simp [List.chain'_cons, List.chain'_singleton, PrevR, oneNodeState]
  · intro n hn
    have : n = 2 := List.mem_singleton.mp hn
    subst this
    decide
  · decide

/-- Witness for C6: pushing node 3 onto the one-node list. -/
theorem pushBack_effects_witness :
    ∃ s5, pushBack oneNodeState 0 3 = some s5 ∧
      (s5.nodes 3).owner = some 0 ∧
      (s5.lrus 0).size = 512 ∧
      (s5.nodes 3).active = false ∧
      (s5.nodes 3).next = some 1 ∧
      ListInv s5 0 [2, 3] := by
  obtain ⟨s5, h1, h2, h3, h4, h5, _, h7⟩ :=
    pushBack_effects oneNodeState 0 [2] 3 oneNode_listInv
      (by decide) (by decide) (by decide)
  refine ⟨s5, h1, h2, ?_, h4, h5, h7⟩
  rw [h3]
  decide

/-! ### The shrink walk invariant -/

/-- Invariant of the shrink walk over the source list `lid`, with a
companion destination list `l2` that move callbacks may push onto.  `ids`
is the remaining chain of owned nodes from the walk position `cur` to the
tail sentinel (inclusive of nodes re-attached behind the walk); the head
sentinel's links are stale and get relinked on exit.  The destination list
is fully well-formed and disjoint from the source chain. -/
structure WalkInv (s : State) (lid l2 : Nat) (cur : Nat)
    (ids ids2 : List Nat) : Prop where
  curHead : (ids ++ [(s.lrus lid).fakeTail]).head? = some cur
  nextOk : (ids ++ [(s.lrus lid).fakeTail]).Chain' (NextR s)
  prevOk : (ids ++ [(s.lrus lid).fakeTail]).Chain' (PrevR s)
  nodup : (ids ++ [(s.lrus lid).fakeTail]).Nodup
  fhNotMem : (s.lrus lid).fakeHead ∉ ids ++ [(s.lrus lid).fakeTail]
  ownerOk : ∀ n ∈ ids, (s.nodes n).owner = some lid
  sizeOk : (s.lrus lid).size = sumSizes s ids
  inv2 : ListInv s l2 ids2
  disj : ∀ x ∈ ((s.lrus l2).fakeHead :: ids2) ++ [(s.lrus l2).fakeTail],
    x ∉ ((s.lrus lid).fakeHead :: ids) ++ [(s.lrus lid).fakeTail]
  lneq : lid ≠ l2

/-- At the start of a shrink over two disjoint well-formed lists, the head
pointer exists and the walk invariant holds at it. -/
theorem walkInv_init (s : State) (lid l2 : Nat) (ids ids2 : List Nat)
    (h1 : ListInv s lid ids) (h2 : ListInv s l2 ids2)
    (hdisj : ∀ x ∈ ((s.lrus l2).fakeHead :: ids2) ++ [(s.lrus l2).fakeTail],
      x ∉ ((s.lrus lid).fakeHead :: ids) ++ [(s.lrus lid).fakeTail])
    (hne : lid ≠ l2) :
    ∃ hd, (s.nodes (s.lrus lid).fakeHead).next = some hd ∧
      WalkInv s lid l2 hd ids ids2 := by
  have hne2 : ids ++ [(s.lrus lid).fakeTail] ≠ [] := by simp
  set hd := (ids ++ [(s.lrus lid).fakeTail]).head hne2 with hhd
  have hhd? : (ids ++ [(s.lrus lid).fakeTail]).head? = some hd :=
    List.head?_eq_head hne2
  have hcons : ((s.lrus lid).fakeHead :: ids) ++ [(s.lrus lid).fakeTail] =
      (s.lrus lid).fakeHead :: (ids ++ [(s.lrus lid).fakeTail]) := by simp
  have hnx := h1.nextOk
  rw [hcons, List.chain'_cons'] at hnx
  refine ⟨hd, hnx.1 hd hhd?, ?_⟩
  have hpv := h1.prevOk
  rw [hcons] at hpv
  have hnd := h1.nodup
  rw [hcons, List.nodup_cons] at hnd
  refine ⟨hhd?, hnx.2, hpv.tail, hnd.2, hnd.1, h1.ownerOk, h1.sizeOk, h2,
    hdisj, hne⟩

/-- When the walk position is not the tail sentinel, the remaining chain is
nonempty and starts at the position. -/
theorem walkInv_shape (s : State) (lid l2 : Nat) (cur : Nat)
    (ids ids2 : List Nat) (hinv : WalkInv s lid l2 cur ids ids2)
    (hne : cur ≠ (s.lrus lid).fakeTail) :
    ∃ rest, ids = cur :: rest := by
  cases ids with
  | nil =>
    have := hinv.curHead
    simp only [List.nil_append, List.head?_cons, Option.some.injEq] at this
    exact absurd this.symm hne
  | cons c rest =>
    have := hinv.curHead
    simp only [List.cons_append, List.head?_cons, Option.some.injEq] at this
    subst this
    exact ⟨rest, rfl⟩

/-- When the walk position is the tail sentinel, the remaining chain is
empty and the recorded size is zero. -/
theorem walkInv_at_tail (s : State) (lid l2 : Nat) (cur : Nat)
    (ids ids2 : List Nat) (hinv : WalkInv s lid l2 cur ids ids2)
    (heq : cur = (s.lrus lid).fakeTail) :
    ids = [] ∧ (s.lrus lid).size = 0 := by
  have hids : ids = [] := by
    cases ids with
    | nil => rfl
    | cons c rest =>
      have hhd := hinv.curHead
      simp only [List.cons_append, List.head?_cons, Option.some.injEq] at hhd
      have hnd := hinv.nodup
      rw [List.nodup_append] at hnd
      exact absurd (List.mem_singleton_self _)
        (by
          have : (s.lrus lid).fakeTail ∈ c :: rest := by
            rw [← heq, ← hhd]
            exact List.mem_cons_self _ _
          exact fun hmem => hnd.2.2 this hmem)
  subst hids
  exact ⟨rfl, by rw [hinv.sizeOk]; rfl⟩

/-- Facts about the walk position when the remaining chain is `cur :: rest`. -/
theorem walkInv_cur_facts (s : State) (lid l2 : Nat) (cur : Nat)
    (rest ids2 : List Nat) (hinv : WalkInv s lid l2 cur (cur :: rest) ids2) :
    (s.nodes cur).owner = some lid ∧
    (∃ nx, (rest ++ [(s.lrus lid).fakeTail]).head? = some nx ∧
      (s.nodes cur).next = some nx) ∧
    cur ≠ (s.lrus lid).fakeTail ∧ cur ∉ rest ∧
    (s.lrus lid).fakeTail ∉ cur :: rest := by
  have hnd := hinv.nodup
  have hcons : (cur :: rest) ++ [(s.lrus lid).fakeTail] =
      cur :: (rest ++ [(s.lrus lid).fakeTail]) := by simp
  rw [hcons, List.nodup_cons] at hnd
  have hft : (s.lrus lid).fakeTail ∉ cur :: rest := by
    have := hinv.nodup
    rw [List.nodup_append] at this
    intro hmem
    exact this.2.2 hmem (List.mem_singleton_self _)
  have hcurft : cur ≠ (s.lrus lid).fakeTail := by
    intro heq
    exact hft (heq ▸ List.mem_cons_self _ _)
  have hcurrest : cur ∉ rest := fun hmem => hnd.1 (by simp [hmem])
  have hnx := hinv.nextOk
  rw [hcons, List.chain'_cons'] at hnx
  have hne2 : rest ++ [(s.lrus lid).fakeTail] ≠ [] := by simp
  refine ⟨hinv.ownerOk cur (List.mem_cons_self _ _),
    ⟨(rest ++ [(s.lrus lid).fakeTail]).head hne2, List.head?_eq_head hne2,
      hnx.1 _ (List.head?_eq_head hne2)⟩,
    hcurft, hcurrest, hft⟩

/-- The debug clearing of the walked node's prev pointer preserves the walk
invariant. -/
theorem walkInv_debug_clear (dbg : Bool) (s : State) (lid l2 : Nat)
    (cur : Nat) (rest ids2 : List Nat)
    (hinv : WalkInv s lid l2 cur (cur :: rest) ids2) :
    WalkInv (if dbg then setNode s cur { s.nodes cur with prev := none } else s)
      lid l2 cur (cur :: rest) ids2 := by
  cases dbg
  · simpa using hinv
  · simp only [if_true]
    set sA := setNode s cur { s.nodes cur with prev := none } with hsA
    have hlru : sA.lrus = s.lrus := rfl
    have hnodes_ne : ∀ m, m ≠ cur → sA.nodes m = s.nodes m := by
      intro m hm
      rw [hsA, setNode_nodes_ne _ _ hm]
    have hnext : ∀ m, (sA.nodes m).next = (s.nodes m).next := by
      intro m
      by_cases hm : m = cur
      · subst hm
        rw [hsA, setNode_nodes_self]
      · rw [hnodes_ne m hm]
    have howner : ∀ m, (sA.nodes m).owner = (s.nodes m).owner := by
      intro m
      by_cases hm : m = cur
      · subst hm
        rw [hsA, setNode_nodes_self]
      · rw [hnodes_ne m hm]
    have hsize : ∀ m, (sA.nodes m).size = (s.nodes m).size := by
      intro m
      by_cases hm : m = cur
      · subst hm
        rw [hsA, setNode_nodes_self]
        simp [Node.size]
      · rw [hnodes_ne m hm]
    have hcurtail : (s.lrus lid).fakeTail ∉ cur :: rest :=
      (walkInv_cur_facts s lid l2 cur rest ids2 hinv).2.2.2.2
    have hcurnotintail : cur ∉ rest ++ [(s.lrus lid).fakeTail] := by
      intro hmem
      rcases List.mem_append.mp hmem with h | h
      · exact (walkInv_cur_facts s lid l2 cur rest ids2 hinv).2.2.2.1 h
      · exact (walkInv_cur_facts s lid l2 cur rest ids2 hinv).2.2.1
          (List.mem_singleton.mp h)
    refine ⟨?_, ?_, ?_, ?_, ?_, ?_, ?_, ?_, ?_, hinv.lneq⟩
    · rw [hlru]; exact hinv.curHead
    · rw [hlru]
      refine chain'_congr_adj _ ?_ hinv.nextOk
      intro a _ b _ hr
      unfold NextR at hr ⊢
      rw [hnext]
      exact hr
    · rw [hlru]
      refine chain'_congr_adj _ ?_ hinv.prevOk
      intro a _ b hb hr
      unfold PrevR at hr ⊢
      have hbc : b ≠ cur := by
        intro hbeq
        subst hbeq
        simp only [List.cons_append, List.tail_cons] at hb
        exact hcurnotintail hb
      rw [hnodes_ne b hbc]
      exact hr
    · rw [hlru]; exact hinv.nodup
    · rw [hlru]; exact hinv.fhNotMem
    · intro n hn
      rw [howner]
      exact hinv.ownerOk n hn
    · rw [hlru, hinv.sizeOk]
      exact (sumSizes_congr s sA _ (fun a _ => hsize a)).symm
    · refine ListInv_congr s sA l2 ids2 hinv.inv2 (by rw [hlru]) ?_
      intro a ha
      refine hnodes_ne a ?_
      intro haeq
      subst haeq
      exact hinv.disj a ha (by simp)
    · rw [hlru]
      intro x hx
      exact hinv.disj x hx

/-- On walk exit the remaining suffix is relinked after the head sentinel,
restoring full well-formedness of both lists. -/
theorem walk_exit (s : State) (lid l2 : Nat) (cur : Nat)
    (ids ids2 : List Nat) (hinv : WalkInv s lid l2 cur ids ids2) :
    ListInv (link s (s.lrus lid).fakeHead cur) lid ids ∧
    ListInv (link s (s.lrus lid).fakeHead cur) l2 ids2 := by
  have hlru : (link s (s.lrus lid).fakeHead cur).lrus = s.lrus := rfl
  have hcurmem : cur ∈ ids ++ [(s.lrus lid).fakeTail] :=
    List.mem_of_mem_head? (Option.mem_def.mpr hinv.curHead)
  have hfhcur : (s.lrus lid).fakeHead ≠ cur := by
    intro heq
    apply hinv.fhNotMem
    rw [heq]
    exact hcurmem
  have hcurtail : cur ∉ (ids ++ [(s.lrus lid).fakeTail]).tail := by
    have hnd := hinv.nodup
    have hhd := hinv.curHead
    cases hl : ids ++ [(s.lrus lid).fakeTail] with
    | nil => simp
    | cons c r =>
      rw [hl] at hhd hnd
      simp only [List.head?_cons, Option.some.injEq] at hhd
      subst hhd
      simp only [List.tail_cons]
      exact (List.nodup_cons.mp hnd).1
  constructor
  · refine ⟨?_, ?_, ?_, ?_, ?_⟩
    · rw [hlru]
      have hcons : ((s.lrus lid).fakeHead :: ids) ++ [(s.lrus lid).fakeTail] =
          (s.lrus lid).fakeHead :: (ids ++ [(s.lrus lid).fakeTail]) := by simp
      rw [hcons, List.nodup_cons]
      exact ⟨hinv.fhNotMem, hinv.nodup⟩
    · rw [hlru]
      have hcons : ((s.lrus lid).fakeHead :: ids) ++ [(s.lrus lid).fakeTail] =
          (s.lrus lid).fakeHead :: (ids ++ [(s.lrus lid).fakeTail]) := by simp
      rw [hcons, List.chain'_cons']
      constructor
      · intro y hy
        rw [hinv.curHead] at hy
        simp only [Option.mem_def, Option.some.injEq] at hy
        subst hy
        unfold NextR
        rw [link_next_left]
      · refine chain'_congr_adj _ ?_ hinv.nextOk
        intro a ha b _ hr
        unfold NextR at hr ⊢
        have haf : a ≠ (s.lrus lid).fakeHead := by
          intro haeq
          apply hinv.fhNotMem
          rw [← haeq]
          exact List.mem_of_mem_dropLast ha
        rw [link_next_outside s _ cur haf]
        exact hr
    · rw [hlru]
      have hcons : ((s.lrus lid).fakeHead :: ids) ++ [(s.lrus lid).fakeTail] =
          (s.lrus lid).fakeHead :: (ids ++ [(s.lrus lid).fakeTail]) := by simp
      rw [hcons, List.chain'_cons']
      constructor
      · intro y hy
        rw [hinv.curHead] at hy
        simp only [Option.mem_def, Option.some.injEq] at hy
        subst hy
        unfold PrevR
        rw [link_prev_right]
      · refine chain'_congr_adj _ ?_ hinv.prevOk
        intro a _ b hb hr
        unfold PrevR at hr ⊢
        have hbc : b ≠ cur := by
          intro hbeq
          subst hbeq
          exact hcurtail hb
        rw [link_prev_outside s _ cur hbc]
        exact hr
    · intro n hn
      rw [link_owner]
      exact hinv.ownerOk n hn
    · rw [hlru, hinv.sizeOk]
      exact (sumSizes_congr s _ _
        (fun a _ => by rw [link_size_node])).symm
  · refine ListInv_congr s _ l2 ids2 hinv.inv2 (by rw [hlru]) ?_
    intro a ha
    have hafh : a ≠ (s.lrus lid).fakeHead := by
      intro haeq
      subst haeq
      exact hinv.disj _ ha (by simp)
    have hacur : a ≠ cur := by
      intro haeq
      subst haeq
      exact hinv.disj _ ha (by
        rcases List.mem_append.mp hcurmem with h | h
        · simp [h]
        · simp [List.mem_singleton.mp h])
    rw [link_nodes_outside s _ cur hafh hacur]

/-- Rebuilding the walk invariant at the next position after a callback
that did not touch the remaining source chain. -/
theorem walkInv_rebuild (s s2 : State) (lid l2 : Nat) (cur nx : Nat)
    (rest ids2 ids2' : List Nat)
    (hinv : WalkInv s lid l2 cur (cur :: rest) ids2)
    (hnxhead : (rest ++ [(s.lrus lid).fakeTail]).head? = some nx)
    (hfh : (s2.lrus lid).fakeHead = (s.lrus lid).fakeHead)
    (hft : (s2.lrus lid).fakeTail = (s.lrus lid).fakeTail)
    (hsz : (s2.lrus lid).size = sumSizes s rest)
    (hcells : ∀ m, m ∈ rest ++ [(s.lrus lid).fakeTail] → s2.nodes m = s.nodes m)
    (hinv2 : ListInv s2 l2 ids2')
    (hsent2fh : (s2.lrus l2).fakeHead = (s.lrus l2).fakeHead)
    (hsent2ft : (s2.lrus l2).fakeTail = (s.lrus l2).fakeTail)
    (hids2sub : ∀ x ∈ ids2', x ∈ ids2 ∨ x = cur) :
    WalkInv s2 lid l2 nx rest ids2' := by
  obtain ⟨_, _, hcurft, hcurrest, hftmem⟩ :=
    walkInv_cur_facts s lid l2 cur rest ids2 hinv
  have hconsold : (cur :: rest) ++ [(s.lrus lid).fakeTail] =
      cur :: (rest ++ [(s.lrus lid).fakeTail]) := by simp
  have hnextOld : (rest ++ [(s.lrus lid).fakeTail]).Chain' (NextR s) := by
    have := hinv.nextOk
    rw [hconsold] at this
    exact this.tail
  have hprevOld : (rest ++ [(s.lrus lid).fakeTail]).Chain' (PrevR s) := by
    have := hinv.prevOk
    rw [hconsold] at this
    exact this.tail
  have hndOld : (rest ++ [(s.lrus lid).fakeTail]).Nodup := by
    have := hinv.nodup
    rw [hconsold] at this
    exact this.of_cons
  refine ⟨?_, ?_, ?_, ?_, ?_, ?_, ?_, hinv2, ?_, hinv.lneq⟩
  · rw [hft]
    exact hnxhead
  · rw [hft]
    refine chain'_congr_adj _ ?_ hnextOld
    intro a ha b _ hr
    unfold NextR at hr ⊢
    rw [hcells a (List.mem_of_mem_dropLast ha)]
    exact hr
  · rw [hft]
    refine chain'_congr_adj _ ?_ hprevOld
    intro a _ b hb hr
    unfold PrevR at hr ⊢
    rw [hcells b (List.mem_of_mem_tail hb)]
    exact hr
  · rw [hft]
    exact hndOld
  · rw [hfh, hft]
    intro hmem
    apply hinv.fhNotMem
    rw [hconsold]
    exact List.mem_cons_of_mem _ hmem
  · intro n hn
    rw [hcells n (List.mem_append_left _ hn)]
    exact hinv.ownerOk n (List.mem_cons_of_mem _ hn)
  · rw [hsz]
    exact (sumSizes_congr s s2 rest
      (fun a ha => by rw [hcells a (List.mem_append_left _ ha)])).symm
  · intro x hx
    have hxold : x ∈ ((s.lrus l2).fakeHead :: ids2) ++ [(s.lrus l2).fakeTail]
        ∨ x = cur := by
      rw [hsent2fh, hsent2ft] at hx
      rcases List.mem_append.mp hx with h | h
      · rcases List.mem_cons.mp h with h | h
        · left; simp [h]
        · rcases hids2sub x h with h2 | h2
          · left; simp [h2]
          · right; exact h2
      · left
        exact List.mem_append_right _ h
    rw [hfh, hft]
    intro hmem
    rcases hxold with hxold | hxold
    · apply hinv.disj x hxold
      rcases List.mem_cons.mp hmem with h | h
      · simp [h]
      · rcases List.mem_append.mp h with h | h
        · simp [List.mem_cons_of_mem, h]
        · have : x = (s.lrus lid).fakeTail := List.mem_singleton.mp h
          simp [this]
    · subst hxold
      rcases List.mem_cons.mp hmem with h | h
      · exact hinv.fhNotMem (by rw [← h]; exact List.mem_cons_self _ _)
      · rcases List.mem_append.mp h with h | h
        · exact hcurrest h
        · exact hcurft (List.mem_singleton.mp h)

/-- One walk step with the disown-and-drop callback. -/
theorem walk_step_drop (dbg : Bool) (s : State) (lid l2 : Nat) (cur : Nat)
    (rest ids2 : List Nat)
    (hinv : WalkInv s lid l2 cur (cur :: rest) ids2) :
    ∃ nx s2, (rest ++ [(s.lrus lid).fakeTail]).head? = some nx ∧
      (s.nodes cur).next = some nx ∧
      dropNode dbg s cur = some s2 ∧
      WalkInv s2 lid l2 nx rest ids2 := by
  obtain ⟨hown, ⟨nx, hnxhead, hnxcur⟩, hcurft, hcurrest, hftmem⟩ :=
    walkInv_cur_facts s lid l2 cur rest ids2 hinv
  obtain ⟨s2, hdiseq, _, _, _, _, _, _, _, hframe, hlruL, hlru2⟩ :=
    disown_spec dbg s cur lid hown
  have hl2lid : l2 ≠ lid := Ne.symm hinv.lneq
  have hcellsrest : ∀ m, m ∈ rest ++ [(s.lrus lid).fakeTail] →
      s2.nodes m = s.nodes m := by
    intro m hm
    refine hframe m ?_
    intro hmeq
    subst hmeq
    rcases List.mem_append.mp hm with h | h
    · exact hcurrest h
    · exact hcurft (List.mem_singleton.mp h)
  have hcurnotl2 : ∀ x ∈ ((s.lrus l2).fakeHead :: ids2) ++ [(s.lrus l2).fakeTail],
      x ≠ cur := by
    intro x hx hxeq
    subst hxeq
    exact hinv.disj x hx (by simp)
  refine ⟨nx, s2, hnxhead, hnxcur, hdiseq, ?_⟩
  refine walkInv_rebuild s s2 lid l2 cur nx rest ids2 ids2 hinv hnxhead
    (by rw [hlruL]) (by rw [hlruL]) ?_ hcellsrest ?_
    (by rw [hlru2 l2 hl2lid]) (by rw [hlru2 l2 hl2lid])
    (fun x hx => Or.inl hx)
  · rw [hlruL]
    show (s.lrus lid).size - (s.nodes cur).size = sumSizes s rest
    rw [hinv.sizeOk, sumSizes_cons]
    ring
  · refine ListInv_congr s s2 l2 ids2 hinv.inv2 (hlru2 l2 hl2lid) ?_
    intro a ha
    exact hframe a (hcurnotl2 a ha)

/-- One walk step with the move-to-the-other-list callback. -/
theorem walk_step_moveOther (dbg : Bool) (s : State) (lid l2 : Nat) (cur : Nat)
    (rest ids2 : List Nat)
    (hinv : WalkInv s lid l2 cur (cur :: rest) ids2) :
    ∃ nx s2, (rest ++ [(s.lrus lid).fakeTail]).head? = some nx ∧
      (s.nodes cur).next = some nx ∧
      moveTo dbg l2 s cur = some s2 ∧
      WalkInv s2 lid l2 nx rest (ids2 ++ [cur]) := by
  obtain ⟨hown, ⟨nx, hnxhead, hnxcur⟩, hcurft, hcurrest, hftmem⟩ :=
    walkInv_cur_facts s lid l2 cur rest ids2 hinv
  obtain ⟨sB, hdiseq, _, _, _, _, _, _, _, hframeB, hlruLB, hlru2B⟩ :=
    disown_spec dbg s cur lid hown
  have hl2lid : l2 ≠ lid := Ne.symm hinv.lneq
  have hcurmeml : cur ∈ ((s.lrus lid).fakeHead :: cur :: rest) ++
      [(s.lrus lid).fakeTail] := by simp
  have hcurnotl2 : ∀ x ∈ ((s.lrus l2).fakeHead :: ids2) ++ [(s.lrus l2).fakeTail],
      x ≠ cur := by
    intro x hx hxeq
    subst hxeq
    exact hinv.disj x hx hcurmeml
  have hinv2B : ListInv sB l2 ids2 := by
    refine ListInv_congr s sB l2 ids2 hinv.inv2 (hlru2B l2 hl2lid) ?_
    intro a ha
    exact hframeB a (hcurnotl2 a ha)
  have hfresh1 : cur ∉ ids2 := by
    intro hmem
    exact hcurnotl2 cur (by simp [hmem]) rfl
  have hfresh2 : cur ≠ (sB.lrus l2).fakeHead := by
    rw [hlru2B l2 hl2lid]
    intro heq
    exact hcurnotl2 _ (by simp) heq.symm
  have hfresh3 : cur ≠ (sB.lrus l2).fakeTail := by
    rw [hlru2B l2 hl2lid]
    intro heq
    exact hcurnotl2 _ (by simp) heq.symm
  obtain ⟨s2, hpbeq, hinv2', hlruU, hlru3, hownC, hactC, hnextC, hprevFtC,
    hsizesC, hframeC⟩ := pushBack_listInv sB l2 ids2 cur hinv2B hfresh1 hfresh2 hfresh3
  have hmv : moveTo dbg l2 s cur = some s2 := by
    rw [moveTo, hdiseq]
    simpa using hpbeq
  refine ⟨nx, s2, hnxhead, hnxcur, hmv, ?_⟩
  have hlidlru : s2.lrus lid = sB.lrus lid := hlru3 lid hinv.lneq
  have hcells : ∀ m, m ∈ rest ++ [(s.lrus lid).fakeTail] →
      s2.nodes m = s.nodes m := by
    intro m hm
    have hmcur : m ≠ cur := by
      intro hmeq
      subst hmeq
      rcases List.mem_append.mp hm with h | h
      · exact hcurrest h
      · exact hcurft (List.mem_singleton.mp h)
    have hmlmem : m ∈ ((s.lrus lid).fakeHead :: cur :: rest) ++
        [(s.lrus lid).fakeTail] := by
      rcases List.mem_append.mp hm with h | h
      · simp [List.mem_cons_of_mem, h]
      · simp [List.mem_singleton.mp h]
    have hmnotl2 : m ∉ ((sB.lrus l2).fakeHead :: ids2) ++ [(sB.lrus l2).fakeTail] := by
      rw [hlru2B l2 hl2lid]
      intro hmem
      exact hinv.disj m hmem hmlmem
    rw [hframeC m hmnotl2 hmcur, hframeB m hmcur]
  refine walkInv_rebuild s s2 lid l2 cur nx rest ids2 (ids2 ++ [cur]) hinv hnxhead
    (by rw [hlidlru, hlruLB]) (by rw [hlidlru, hlruLB]) ?_ hcells hinv2'
    (by rw [hlruU, hlru2B l2 hl2lid]) (by rw [hlruU, hlru2B l2 hl2lid])
    (fun x hx => by
      rcases List.mem_append.mp hx with h | h
      · exact Or.inl h
      · exact Or.inr (List.mem_singleton.mp h))
  · rw [hlidlru, hlruLB]
    show (s.lrus lid).size - (s.nodes cur).size = sumSizes s rest
    rw [hinv.sizeOk, sumSizes_cons]
    ring

/-- One walk step with the re-attach-to-the-source-list callback (the hot
compaction on-active move).  When the walked node was the only remaining
one, the captured next pointer is already the tail sentinel while the size
is unchanged, so the walk is headed into the tail-sentinel assertion. -/
theorem walk_step_moveSame (dbg : Bool) (s : State) (lid l2 : Nat) (cur : Nat)
    (rest ids2 : List Nat)
    (hinv : WalkInv s lid l2 cur (cur :: rest) ids2) :
    ∃ nx s2, (rest ++ [(s.lrus lid).fakeTail]).head? = some nx ∧
      (s.nodes cur).next = some nx ∧
      moveTo dbg lid s cur = some s2 ∧
      (WalkInv s2 lid l2 nx (rest ++ [cur]) ids2 ∨
        (nx = (s2.lrus lid).fakeTail ∧
          (s2.lrus lid).size = (s.lrus lid).size)) := by
  obtain ⟨hown, ⟨nx, hnxhead, hnxcur⟩, hcurft, hcurrest, hftmem⟩ :=
    walkInv_cur_facts s lid l2 cur rest ids2 hinv
  obtain ⟨sB, hdiseq, _, _, _, _, hszB, _, _, hframeB, hlruLB, hlru2B⟩ :=
    disown_spec dbg s cur lid hown
  have hl2lid : l2 ≠ lid := Ne.symm hinv.lneq
  have hftcur : (s.lrus lid).fakeTail ≠ cur := by
    intro heq
    exact hftmem (heq ▸ List.mem_cons_self _ _)
  have hconsold : (cur :: rest) ++ [(s.lrus lid).fakeTail] =
      cur :: (rest ++ [(s.lrus lid).fakeTail]) := by simp
  have hpv := hinv.prevOk
  rw [List.chain'_append] at hpv
  have ht0 : (s.nodes (s.lrus lid).fakeTail).prev =
      some ((cur :: rest).getLast (by simp)) :=
    hpv.2.2 _ (List.getLast?_eq_getLast _ (by simp)) _ rfl
  have hftB : (sB.lrus lid).fakeTail = (s.lrus lid).fakeTail := by rw [hlruLB]
  have htB : (sB.nodes (sB.lrus lid).fakeTail).prev =
      some ((cur :: rest).getLast (by simp)) := by
    rw [hftB, hframeB _ hftcur]
    exact ht0
  have hn3B : cur ≠ (sB.lrus lid).fakeTail := by
    rw [hftB]
    exact hcurft
  cases rest with
  | nil =>
    have hnxft : nx = (s.lrus lid).fakeTail := by
      simp only [List.nil_append, List.head?_cons, Option.some.injEq] at hnxhead
      exact hnxhead.symm
    obtain ⟨s2, hpbeq, hlruU, _, _, _, _, _⟩ :=
      pushBack_size_only sB lid cur _ htB hn3B
    have hmv : moveTo dbg lid s cur = some s2 := by
      rw [moveTo, hdiseq]
      simpa using hpbeq
    refine ⟨nx, s2, hnxhead, hnxcur, hmv, Or.inr ⟨?_, ?_⟩⟩
    · rw [hlruU]
      show nx = (sB.lrus lid).fakeTail
      rw [hftB]
      exact hnxft
    · rw [hlruU]
      show (sB.lrus lid).size + (sB.nodes cur).size = (s.lrus lid).size
      rw [hszB, hlruLB]
      show (s.lrus lid).size - (s.nodes cur).size + (s.nodes cur).size =
        (s.lrus lid).size
      ring
  | cons r0 rs =>
    have hrestne : r0 :: rs ≠ [] := by simp
    have htlast : (cur :: r0 :: rs).getLast (by simp) =
        (r0 :: rs).getLast hrestne := List.getLast_cons hrestne
    rw [htlast] at htB
    have htmem : (r0 :: rs).getLast hrestne ∈ r0 :: rs := List.getLast_mem _
    have htcur : (r0 :: rs).getLast hrestne ≠ cur := by
      intro heq
      exact hcurrest (heq ▸ htmem)
    have htft : (r0 :: rs).getLast hrestne ≠ (sB.lrus lid).fakeTail := by
      rw [hftB]
      intro heq
      exact hftmem (heq ▸ List.mem_cons_of_mem _ htmem)
    obtain ⟨s2, hpbeq, hcn, hct, hcf, hframeC, hsizesC, hlruU, hlru2C⟩ :=
      pushBack_spec sB lid cur _ htB hn3B htcur htft
    have hmv : moveTo dbg lid s cur = some s2 := by
      rw [moveTo, hdiseq]
      simpa using hpbeq
    have hfhEq : (s2.lrus lid).fakeHead = (s.lrus lid).fakeHead := by
      rw [hlruU, hlruLB]
    have hftEq : (s2.lrus lid).fakeTail = (s.lrus lid).fakeTail := by
      rw [hlruU, hlruLB]
    have hsizeAll : ∀ m, (s2.nodes m).size = (s.nodes m).size := by
      intro m
      by_cases hm : m = cur
      · subst hm
        rw [hsizesC, hszB]
      · rw [hsizesC, hframeB m hm]
    have hcellAway : ∀ m, m ≠ cur → m ≠ (r0 :: rs).getLast hrestne →
        m ≠ (s.lrus lid).fakeTail → s2.nodes m = s.nodes m := by
      intro m h1 h2 h3
      rw [hframeC m h1 h2 (by rw [hftB]; exact h3), hframeB m h1]
    have htprev : (s2.nodes ((r0 :: rs).getLast hrestne)).prev =
        (s.nodes ((r0 :: rs).getLast hrestne)).prev := by
      rw [hct]
      show (sB.nodes ((r0 :: rs).getLast hrestne)).prev = _
      rw [hframeB _ htcur]
    have htowner : (s2.nodes ((r0 :: rs).getLast hrestne)).owner =
        (s.nodes ((r0 :: rs).getLast hrestne)).owner := by
      rw [hct]
      show (sB.nodes ((r0 :: rs).getLast hrestne)).owner = _
      rw [hframeB _ htcur]
    have hnextOld : ((r0 :: rs) ++ [(s.lrus lid).fakeTail]).Chain' (NextR s) := by
      have := hinv.nextOk
      rw [hconsold] at this
      exact this.tail
    have hprevOld : ((r0 :: rs) ++ [(s.lrus lid).fakeTail]).Chain' (PrevR s) := by
      have := hinv.prevOk
      rw [hconsold] at this
      exact this.tail
    have hndOld : ((r0 :: rs) ++ [(s.lrus lid).fakeTail]).Nodup := by
      have := hinv.nodup
      rw [hconsold] at this
      exact this.of_cons
    have hndRest : (r0 :: rs).Nodup := List.Nodup.of_append_left hndOld
    have htnotdrop : (r0 :: rs).getLast hrestne ∉ (r0 :: rs).dropLast :=
      getLast_not_mem_dropLast _ hrestne hndRest
    have hftnotrest : (s.lrus lid).fakeTail ∉ r0 :: rs := by
      intro hmem
      exact hftmem (List.mem_cons_of_mem _ hmem)
    have hnxr0 : nx = r0 := by
      simp only [List.cons_append, List.head?_cons, Option.some.injEq] at hnxhead
      exact hnxhead.symm
    refine ⟨nx, s2, hnxhead, hnxcur, hmv, Or.inl ?_⟩
    refine ⟨?_, ?_, ?_, ?_, ?_, ?_, ?_, ?_, ?_, hinv.lneq⟩
    · rw [hftEq, hnxr0]
      simp
    · rw [hftEq]
      have hsplit : ((r0 :: rs) ++ [cur]) ++ [(s.lrus lid).fakeTail] =
          (r0 :: rs) ++ [cur, (s.lrus lid).fakeTail] := by simp
      rw [hsplit, List.chain'_append]
      refine ⟨?_, ?_, ?_⟩
      · have holdrest : (r0 :: rs).Chain' (NextR s) :=
          (List.chain'_append.mp hnextOld).1
        refine chain'_congr_adj _ ?_ holdrest
        intro a ha b _ hr
        unfold NextR at hr ⊢
        have ha1 : a ≠ cur := by
          intro heq
          exact hcurrest (heq ▸ List.mem_of_mem_dropLast ha)
        have ha2 : a ≠ (r0 :: rs).getLast hrestne := by
          intro heq
          exact htnotdrop (heq ▸ ha)
        have ha3 : a ≠ (s.lrus lid).fakeTail := by
          intro heq
          exact hftnotrest (heq ▸ List.mem_of_mem_dropLast ha)
        rw [hcellAway a ha1 ha2 ha3]
        exact hr
      · rw [List.chain'_cons]
        refine ⟨?_, List.chain'_singleton _⟩
        unfold NextR
        rw [hcn]
        show some (sB.lrus lid).fakeTail = some (s.lrus lid).fakeTail
        rw [hftB]
      · intro x hx y hy
        have hxt : x = (r0 :: rs).getLast hrestne := by
          rw [List.getLast?_eq_getLast _ hrestne] at hx
          simp only [Option.mem_def, Option.some.injEq] at hx
          exact hx.symm
        have hyc : y = cur := by
          simp only [List.head?_cons, Option.mem_def, Option.some.injEq] at hy
          exact hy.symm
        subst hxt
        subst hyc
        unfold NextR
        rw [hct]
    · rw [hftEq]
      have hsplit : ((r0 :: rs) ++ [cur]) ++ [(s.lrus lid).fakeTail] =
          (r0 :: rs) ++ [cur, (s.lrus lid).fakeTail] := by simp
      rw [hsplit, List.chain'_append]
      refine ⟨?_, ?_, ?_⟩
      · have holdrest : (r0 :: rs).Chain' (PrevR s) :=
          (List.chain'_append.mp hprevOld).1
        refine chain'_congr_adj _ ?_ holdrest
        intro a _ b hb hr
        unfold PrevR at hr ⊢
        by_cases hbt : b = (r0 :: rs).getLast hrestne
        · subst hbt
          rw [htprev]
          exact hr
        · have hb1 : b ≠ cur := by
            intro heq
            exact hcurrest (heq ▸ List.mem_of_mem_tail hb)
          have hb3 : b ≠ (s.lrus lid).fakeTail := by
            intro heq
            exact hftnotrest (heq ▸ List.mem_of_mem_tail hb)
          rw [hcellAway b hb1 hbt hb3]
          exact hr
      · rw [List.chain'_cons]
        refine ⟨?_, List.chain'_singleton _⟩
        unfold PrevR
        rw [hftB] at hcf
        rw [hcf]
      · intro x hx y hy
        have hxt : x = (r0 :: rs).getLast hrestne := by
          rw [List.getLast?_eq_getLast _ hrestne] at hx
          simp only [Option.mem_def, Option.some.injEq] at hx
          exact hx.symm
        have hyc : y = cur := by
          simp only [List.head?_cons, Option.mem_def, Option.some.injEq] at hy
          exact hy.symm
        subst hxt
        subst hyc
        unfold PrevR
        rw [hcn]
    · rw [hftEq]
      have hsplit : ((r0 :: rs) ++ [cur]) ++ [(s.lrus lid).fakeTail] =
          (r0 :: rs) ++ cur :: [(s.lrus lid).fakeTail] := by simp
      rw [hsplit]
      have hperm : ((r0 :: rs) ++ cur :: [(s.lrus lid).fakeTail]).Perm
          (cur :: ((r0 :: rs) ++ [(s.lrus lid).fakeTail])) := List.perm_middle
      rw [hperm.nodup_iff, List.nodup_cons]
      constructor
      · intro hmem
        rcases List.mem_append.mp hmem with h | h
        · exact hcurrest h
        · exact hcurft (List.mem_singleton.mp h)
      · exact hndOld
    · rw [hfhEq, hftEq]
      intro hmem
      apply hinv.fhNotMem
      rw [hconsold]
      rcases List.mem_append.mp hmem with h | h
      · rcases List.mem_append.mp h with h | h
        · exact List.mem_cons_of_mem _ (List.mem_append_left _ h)
        · rw [List.mem_singleton.mp h]
          exact List.mem_cons_self _ _
      · exact List.mem_cons_of_mem _ (List.mem_append_right _ h)
    · intro n hn
      rcases List.mem_append.mp hn with h | h
      · by_cases hnt : n = (r0 :: rs).getLast hrestne
        · subst hnt
          rw [htowner]
          exact hinv.ownerOk _ (List.mem_cons_of_mem _ htmem)
        · have hn1 : n ≠ cur := by
            intro heq
            exact hcurrest (heq ▸ h)
          have hn3 : n ≠ (s.lrus lid).fakeTail := by
            intro heq
            exact hftnotrest (heq ▸ h)
          rw [hcellAway n hn1 hnt hn3]
          exact hinv.ownerOk n (List.mem_cons_of_mem _ h)
      · rw [List.mem_singleton.mp h, hcn]
    · rw [hlruU]
      show (sB.lrus lid).size + (sB.nodes cur).size =
        sumSizes s2 ((r0 :: rs) ++ [cur])
      rw [hszB, hlruLB]
      show (s.lrus lid).size - (s.nodes cur).size + (s.nodes cur).size =
        sumSizes s2 ((r0 :: rs) ++ [cur])
      rw [hinv.sizeOk, sumSizes_congr s s2 _ (fun a _ => hsizeAll a)]
      simp only [sumSizes_append, sumSizes_cons, sumSizes_nil]
      ring
    · refine ListInv_congr s s2 l2 ids2 hinv.inv2 ?_ ?_
      · rw [hlru2C l2 hl2lid, hlru2B l2 hl2lid]
      · intro a ha
        have hal : ∀ z, z ∈ ((s.lrus lid).fakeHead :: cur :: r0 :: rs) ++
            [(s.lrus lid).fakeTail] → a ≠ z := by
          intro z hz haz
          subst haz
          exact hinv.disj a ha hz
        refine hcellAway a ?_ ?_ ?_
        · exact hal cur (by simp)
        · refine hal _ ?_
          rcases List.mem_cons.mp htmem with h | h
          · simp [h]
          · simp [h]
        · exact hal _ (by simp)
    · intro x hx
      have hxold : x ∈ ((s.lrus l2).fakeHead :: ids2) ++ [(s.lrus l2).fakeTail] := by
        have h2fh : (s2.lrus l2).fakeHead = (s.lrus l2).fakeHead := by
          rw [hlru2C l2 hl2lid, hlru2B l2 hl2lid]
        have h2ft : (s2.lrus l2).fakeTail = (s.lrus l2).fakeTail := by
          rw [hlru2C l2 hl2lid, hlru2B l2 hl2lid]
        rw [h2fh, h2ft] at hx
        exact hx
      have hnotold := hinv.disj x hxold
      rw [hfhEq, hftEq]
      intro hmem
      apply hnotold
      simp only [List.cons_append, List.mem_cons, List.mem_append,
        List.mem_singleton] at hmem ⊢
      tauto

/-- The callback contract of C2: a shrink callback either disowns the
walked node and drops it, or disowns it and re-attaches it to a list (the
source list or the companion list). -/
def CbOk (dbg : Bool) (lid l2 : Nat) (cb : State → Nat → Option State) : Prop :=
  cb = dropNode dbg ∨ cb = moveTo dbg lid ∨ cb = moveTo dbg l2

/-- All three callbacks satisfy the C2 contract. -/
def CbsOk (dbg : Bool) (lid l2 : Nat) (cbs : Callbacks) : Prop :=
  CbOk dbg lid l2 cbs.onExpire ∧ CbOk dbg lid l2 cbs.onActive ∧
    CbOk dbg lid l2 cbs.onInactive

/-- The stricter contract: every callback removes the walked node from the
source list (drop, or move to the disjoint companion list). -/
def CbOkStrict (dbg : Bool) (l2 : Nat) (cb : State → Nat → Option State) : Prop :=
  cb = dropNode dbg ∨ cb = moveTo dbg l2

/-- All three callbacks satisfy the strict contract. -/
def CbsOkStrict (dbg : Bool) (l2 : Nat) (cbs : Callbacks) : Prop :=
  CbOkStrict dbg l2 cbs.onExpire ∧ CbOkStrict dbg l2 cbs.onActive ∧
    CbOkStrict dbg l2 cbs.onInactive

/-- Main walk lemma: starting from the walk invariant (or from the doomed
configuration in which the position is the tail sentinel while the size is
above target), the loop either runs out of model fuel, panics on the tail
sentinel assertion, or returns a state in which both lists satisfy the
rest-state invariants. -/
theorem shrinkLoop_walkInv (dbg : Bool) (cbs : Callbacks) (toSize now : Int)
    (lid l2 : Nat) (hcbs : CbsOk dbg lid l2 cbs) :
    ∀ (fuel : Nat) (s : State) (cur : Nat),
      ((∃ ids ids2, WalkInv s lid l2 cur ids ids2) ∨
        (cur = (s.lrus lid).fakeTail ∧ toSize < (s.lrus lid).size)) →
      shrinkLoop dbg cbs toSize now lid fuel s cur = .outOfFuel ∨
      (∃ s3 tr, shrinkLoop dbg cbs toSize now lid fuel s cur =
        .panicked tailMsg s3 tr) ∨
      (∃ s3 tr ids3 ids4, shrinkLoop dbg cbs toSize now lid fuel s cur =
        .ok s3 tr ∧ ListInv s3 lid ids3 ∧ ListInv s3 l2 ids4) := by
  intro fuel
  induction fuel with
  | zero =>
    intro s cur _
    exact Or.inl (shrinkLoop_zero dbg cbs toSize now lid s cur)
  | succ fuel ih =>
    intro s cur hhyp
    rcases hhyp with ⟨ids, ids2, hinv⟩ | ⟨htl, hsz⟩
    · by_cases hsz : toSize < (s.lrus lid).size
      · by_cases htail : cur = (s.lrus lid).fakeTail
        · exact Or.inr (Or.inl ⟨s, [],
            shrinkLoop_tail_panic dbg cbs toSize now lid fuel s cur hsz htail⟩)
        · obtain ⟨rest, hids⟩ := walkInv_shape s lid l2 cur ids ids2 hinv htail
          subst hids
          have hinvA := walkInv_debug_clear dbg s lid l2 cur rest ids2 hinv
          have hlruA : (if dbg then setNode s cur { s.nodes cur with prev := none }
              else s).lrus = s.lrus := by
            cases dbg <;> rfl
          have hnextA : ((if dbg then setNode s cur { s.nodes cur with prev := none }
              else s).nodes cur).next = (s.nodes cur).next := by
            cases dbg
            · rfl
            · simp only [if_true]
              rw [setNode_nodes_self]
          have hone : CbOk dbg lid l2 (dispatchCb cbs now (s.nodes cur)) := by
            rcases dispatchCb_mem cbs now (s.nodes cur) with h | h | h <;> rw [h]
            · exact hcbs.1
            · exact hcbs.2.1
            · exact hcbs.2.2
          rcases hone with hd | hd | hd
          · obtain ⟨nx, s2, hnxhead, hnxcur, hcbeq, hinv2⟩ :=
              walk_step_drop dbg _ lid l2 cur rest ids2 hinvA
            have hcb : dispatchCb cbs now (s.nodes cur)
                (if dbg then setNode s cur { s.nodes cur with prev := none } else s)
                cur = some s2 := by
              rw [hd]
              exact hcbeq
            have hnxs : (s.nodes cur).next = some nx := by
              rw [← hnextA]
              exact hnxcur
            rw [shrinkLoop_step dbg cbs toSize now lid fuel s cur s2 nx hsz
              htail hcb hnxs]
            rcases ih s2 nx (Or.inl ⟨rest, ids2, hinv2⟩) with hres |
              ⟨s3, tr, hres⟩ | ⟨s3, tr, ids3, ids4, hres, hi1, hi2⟩
            · rw [hres]
              exact Or.inl rfl
            · rw [hres]
              exact Or.inr (Or.inl ⟨s3, _ :: tr, rfl⟩)
            · rw [hres]
              exact Or.inr (Or.inr ⟨s3, _ :: tr, ids3, ids4, rfl, hi1, hi2⟩)
          · obtain ⟨nx, s2, hnxhead, hnxcur, hcbeq, hres2⟩ :=
              walk_step_moveSame dbg _ lid l2 cur rest ids2 hinvA
            have hcb : dispatchCb cbs now (s.nodes cur)
                (if dbg then setNode s cur { s.nodes cur with prev := none } else s)
                cur = some s2 := by
              rw [hd]
              exact hcbeq
            have hnxs : (s.nodes cur).next = some nx := by
              rw [← hnextA]
              exact hnxcur
            rw [shrinkLoop_step dbg cbs toSize now lid fuel s cur s2 nx hsz
              htail hcb hnxs]
            have hnext : (∃ idsA ids2A, WalkInv s2 lid l2 nx idsA ids2A) ∨
                (nx = (s2.lrus lid).fakeTail ∧ toSize < (s2.lrus lid).size) := by
              rcases hres2 with h | ⟨h1, h2⟩
              · exact Or.inl ⟨rest ++ [cur], ids2, h⟩
              · refine Or.inr ⟨h1, ?_⟩
                rw [h2, hlruA]
                exact hsz
            rcases ih s2 nx hnext with hres |
              ⟨s3, tr, hres⟩ | ⟨s3, tr, ids3, ids4, hres, hi1, hi2⟩
            · rw [hres]
              exact Or.inl rfl
            · rw [hres]
              exact Or.inr (Or.inl ⟨s3, _ :: tr, rfl⟩)
            · rw [hres]
              exact Or.inr (Or.inr ⟨s3, _ :: tr, ids3, ids4, rfl, hi1, hi2⟩)
          · obtain ⟨nx, s2, hnxhead, hnxcur, hcbeq, hinv2⟩ :=
              walk_step_moveOther dbg _ lid l2 cur rest ids2 hinvA
            have hcb : dispatchCb cbs now (s.nodes cur)
                (if dbg then setNode s cur { s.nodes cur with prev := none } else s)
                cur = some s2 := by
              rw [hd]
              exact hcbeq
            have hnxs : (s.nodes cur).next = some nx := by
              rw [← hnextA]
              exact hnxcur
            rw [shrinkLoop_step dbg cbs toSize now lid fuel s cur s2 nx hsz
              htail hcb hnxs]
            rcases ih s2 nx (Or.inl ⟨rest, ids2 ++ [cur], hinv2⟩) with hres |
              ⟨s3, tr, hres⟩ | ⟨s3, tr, ids3, ids4, hres, hi1, hi2⟩
            · rw [hres]
              exact Or.inl rfl
            · rw [hres]
              exact Or.inr (Or.inl ⟨s3, _ :: tr, rfl⟩)
            · rw [hres]
              exact Or.inr (Or.inr ⟨s3, _ :: tr, ids3, ids4, rfl, hi1, hi2⟩)
      · rw [shrinkLoop_exit dbg cbs toSize now lid fuel s cur hsz]
        obtain ⟨hi1, hi2⟩ := walk_exit s lid l2 cur ids ids2 hinv
        exact Or.inr (Or.inr ⟨_, [], ids, ids2, rfl, hi1, hi2⟩)
    · exact Or.inr (Or.inl ⟨s, [],
        shrinkLoop_tail_panic dbg cbs toSize now lid fuel s cur hsz htl⟩)

/-- With a nonnegative target and callbacks that remove the walked node
from the source list (drop or move to the disjoint companion list), the
walk never reaches the tail sentinel assertion. -/
theorem shrinkLoop_no_tail_panic (dbg : Bool) (cbs : Callbacks) (toSize now : Int)
    (lid l2 : Nat) (hcbs : CbsOkStrict dbg l2 cbs) (h0 : 0 ≤ toSize) :
    ∀ (fuel : Nat) (s : State) (cur : Nat) (ids ids2 : List Nat),
      WalkInv s lid l2 cur ids ids2 →
      ∀ s3 tr, shrinkLoop dbg cbs toSize now lid fuel s cur ≠
        .panicked tailMsg s3 tr := by
  intro fuel
  induction fuel with
  | zero =>
    intro s cur ids ids2 _ s3 tr
    rw [shrinkLoop_zero]
    simp
  | succ fuel ih =>
    intro s cur ids ids2 hinv s3 tr
    by_cases hsz : toSize < (s.lrus lid).size
    · by_cases htail : cur = (s.lrus lid).fakeTail
      · obtain ⟨_, hzero⟩ := walkInv_at_tail s lid l2 cur ids ids2 hinv htail
        rw [hzero] at hsz
        omega
      · obtain ⟨rest, hids⟩ := walkInv_shape s lid l2 cur ids ids2 hinv htail
        subst hids
        have hinvA := walkInv_debug_clear dbg s lid l2 cur rest ids2 hinv
        have hnextA : ((if dbg then setNode s cur { s.nodes cur with prev := none }
            else s).nodes cur).next = (s.nodes cur).next := by
          cases dbg
          · rfl
          · simp only [if_true]
            rw [setNode_nodes_self]
        have hone : CbOkStrict dbg l2 (dispatchCb cbs now (s.nodes cur)) := by
          rcases dispatchCb_mem cbs now (s.nodes cur) with h | h | h <;> rw [h]
          · exact hcbs.1
          · exact hcbs.2.1
          · exact hcbs.2.2
        have hstep : ∃ nx s2,
            dispatchCb cbs now (s.nodes cur)
              (if dbg then setNode s cur { s.nodes cur with prev := none } else s)
              cur = some s2 ∧
            (s.nodes cur).next = some nx ∧
            (∃ idsA ids2A, WalkInv s2 lid l2 nx idsA ids2A) := by
          rcases hone with hd | hd
          · obtain ⟨nx, s2, _, hnxcur, hcbeq, hinv2⟩ :=
              walk_step_drop dbg _ lid l2 cur rest ids2 hinvA
            exact ⟨nx, s2, by rw [hd]; exact hcbeq,
              by rw [← hnextA]; exact hnxcur, ⟨rest, ids2, hinv2⟩⟩
          · obtain ⟨nx, s2, _, hnxcur, hcbeq, hinv2⟩ :=
              walk_step_moveOther dbg _ lid l2 cur rest ids2 hinvA
            exact ⟨nx, s2, by rw [hd]; exact hcbeq,
              by rw [← hnextA]; exact hnxcur, ⟨rest, ids2 ++ [cur], hinv2⟩⟩
        obtain ⟨nx, s2, hcb, hnxs, idsA, ids2A, hinv2⟩ := hstep
        rw [shrinkLoop_step dbg cbs toSize now lid fuel s cur s2 nx hsz
          htail hcb hnxs]
        cases hrec : shrinkLoop dbg cbs toSize now lid fuel s2 nx with
        | ok s4 tr4 => simp
        | outOfFuel => simp
        | panicked m s4 tr4 =>
          simp only [ne_eq, ShrinkResult.panicked.injEq, not_and]
          intro hm _
          exact absurd hrec (by
            rw [hm]
            exact ih s2 nx idsA ids2A hinv2 s4 tr4)
    · rw [shrinkLoop_exit dbg cbs toSize now lid fuel s cur hsz]
      simp

/-! ### C4: negative shrink target panics before anything happens -/

/-- C4: for every list state and time, `shrink` with a negative target
panics with the negative-size message; the panic happens before any node
is walked (empty trace) and the returned state is the unmodified input. -/
theorem shrink_neg_target_panics (dbg : Bool) (cbs : Callbacks)
    (toSize now : Int) (lid : Nat) (fuel : Nat) (s : State)
    (h : toSize < 0) :
    shrink dbg cbs toSize now lid fuel s = .panicked negMsg s [] := by
  simp [shrink, h]

/-- Witness for C4 at a concrete negative target. -/
theorem shrink_neg_target_panics_witness :
    (-1 : Int) < 0 ∧
      shrink false dropAllCbs (-1) 0 0 3 oneNodeState =
        .panicked negMsg oneNodeState [] :=
  ⟨by decide, shrink_neg_target_panics false dropAllCbs (-1) 0 0 3 oneNodeState (by decide)⟩

/-! ### C9: handler construction panics exactly on a too-small chunk size -/

/-- C9: `NewHandler` panics (returns `none`) exactly when the pool's max
chunk size is below the protocol input buffer size; otherwise it completes
without panicking. -/
theorem NewHandler_panics_iff (maxChunkSize maxCommandLength : Int) :
    (NewHandler maxChunkSize maxCommandLength = none ↔
        maxChunkSize < maxCommandLength) ∧
      (maxCommandLength ≤ maxChunkSize →
        NewHandler maxChunkSize maxCommandLength = some ()) := by
  constructor
  · unfold NewHandler
    split <;> simp_all
  · intro h
    unfold NewHandler
    simp [not_lt.mpr h]

/-- Witness for C9 on both sides of the bound. -/
theorem NewHandler_panics_iff_witness :
    NewHandler 1 2 = none ∧ ((2 : Int) ≤ 3 ∧ NewHandler 3 2 = some ()) :=
  ⟨(NewHandler_panics_iff 1 2).1.mpr (by decide),
   by decide,
   (NewHandler_panics_iff 3 2).2 (by decide)⟩

/-! ### C8: oversized SET is rejected in the protocol layer -/

/-- C8: a SET whose declared byte count exceeds the configured maximum item
size makes the protocol layer report the too-large-item client error and
discard the declared bytes plus the separator; `Cache.Set` is never
invoked. -/
theorem connSet_too_large (maxItemSize sepLen bytes : Int) (noreply : Bool)
    (discardErr readClientErr readErr flushErr sendErr : Bool)
    (h : maxItemSize < bytes) :
    connSet maxItemSize sepLen (some (bytes, noreply))
        discardErr readClientErr readErr flushErr sendErr =
      ⟨[.discardBytes (bytes + sepLen)], some .tooLargeItem, discardErr⟩ ∧
    ConnEvent.cacheSet ∉
      (connSet maxItemSize sepLen (some (bytes, noreply))
        discardErr readClientErr readErr flushErr sendErr).events := by
  refine ⟨by simp [connSet, h], ?_⟩
  simp [connSet, h]

/-- Witness for C8: a 1 MiB + 1 item against a 1 MiB limit. -/
theorem connSet_too_large_witness :
    (1048576 : Int) < 1048577 ∧
      connSet 1048576 2 (some (1048577, false)) false false false false false =
        ⟨[.discardBytes 1048579], some .tooLargeItem, false⟩ :=
  ⟨by decide,
   by
    have h := connSet_too_large 1048576 2 1048577 false false false false false false
      (by decide)
    simpa using h.1⟩

/-! ### C10: every view's reader is closed exactly once -/

theorem sendLoop_count_close (errAt : Nat → Bool) :
    ∀ (l : List Nat), l.Nodup → ∀ j : Nat,
      (sendLoop errAt l).count (GetEvent.close j) = if j ∈ l then 1 else 0 := by
  intro l
  induction l with
  | nil => intro _ j; simp [sendLoop]
  | cons i rest ih =>
    intro hnd j
    rw [List.nodup_cons] at hnd
    obtain ⟨hni, hnd⟩ := hnd
    by_cases he : errAt i = true
    · have hinj : Function.Injective GetEvent.close := by
        intro a b hab
        cases hab
        rfl
      simp only [sendLoop, he, if_true]
      rw [List.count_cons_of_ne (by simp), List.count_map_of_injective _ _ hinj]
      by_cases hj : j ∈ i :: rest
      · simp [hj, List.count_eq_one_of_mem (List.nodup_cons.mpr ⟨hni, hnd⟩) hj]
      · simp [hj, List.count_eq_zero_of_not_mem hj]
    · have he' : errAt i = false := by
        cases h : errAt i
        · rfl
        · exact absurd h he
      simp only [sendLoop, he', if_false, Bool.false_eq_true]
      rw [List.count_cons_of_ne (by simp), List.count_cons, ih hnd j]
      by_cases hj : j = i
      · subst hj
        simp [hni]
      · have : ¬ (GetEvent.close j = GetEvent.close i) := by
          intro hc
          cases hc
          exact hj rfl
        simp [this, hj]
        omega

/-- C10: in every `sendGetResponse` run, each view index below the view
count is closed exactly once (streamed views after streaming, the rest by
the deferred cleanup), and no other index is ever closed. -/
theorem sendGetResponse_close_exactly_once (errAt : Nat → Bool) (n j : Nat) :
    (sendGetResponse errAt n).count (GetEvent.close j) =
      if j < n then 1 else 0 := by
  unfold sendGetResponse
  rw [sendLoop_count_close errAt (List.range n) (List.nodup_range n) j]
  simp [List.mem_range]

/-! ### C2: pushBack and shrink preserve the list invariants -/

/-- C2: `pushBack` of a fresh node preserves the rest-state invariants of
the list, and a completed `shrink` preserves them for the source list and
the companion list, provided each callback either disowns the walked node
(drop) or disowns and re-attaches it to a list — the remaining suffix
being relinked after the head sentinel on exit. -/
theorem pushBack_shrink_preserve_inv (dbg : Bool) :
    (∀ (s : State) (lid : Nat) (ids : List Nat) (n : Nat) (s5 : State),
      ListInv s lid ids → n ∉ ids → n ≠ (s.lrus lid).fakeHead →
      n ≠ (s.lrus lid).fakeTail → pushBack s lid n = some s5 →
      ListInv s5 lid (ids ++ [n])) ∧
    (∀ (cbs : Callbacks) (toSize now : Int) (lid l2 : Nat) (s : State)
      (ids ids2 : List Nat) (fuel : Nat) (s3 : State) (tr : List WalkStep),
      CbsOk dbg lid l2 cbs →
      ListInv s lid ids → ListInv s l2 ids2 →
      (∀ x ∈ ((s.lrus l2).fakeHead :: ids2) ++ [(s.lrus l2).fakeTail],
        x ∉ ((s.lrus lid).fakeHead :: ids) ++ [(s.lrus lid).fakeTail]) →
      lid ≠ l2 →
      shrink dbg cbs toSize now lid fuel s = .ok s3 tr →
      ∃ ids3 ids4, ListInv s3 lid ids3 ∧ ListInv s3 l2 ids4) := by
  constructor
  · intro s lid ids n s5 hinv h1 h2 h3 hpb
    obtain ⟨s5', hpb', hinv', _⟩ := pushBack_listInv s lid ids n hinv h1 h2 h3
    rw [hpb] at hpb'
    injection hpb' with h
    rw [h]
    exact hinv'
  · intro cbs toSize now lid l2 s ids ids2 fuel s3 tr hcbs h1 h2 hdisj hne hok
    unfold shrink at hok
    split at hok
    · exact absurd hok (by simp)
    · split at hok
      · exact absurd hok (by simp)
      · rename_i hd hhd
        obtain ⟨hd', hhd', hwinv⟩ := walkInv_init s lid l2 ids ids2 h1 h2 hdisj hne
        rw [hhd] at hhd'
        injection hhd' with he
        rw [← he] at hwinv
        rcases shrinkLoop_walkInv dbg cbs toSize now lid l2 hcbs fuel s hd
            (Or.inl ⟨ids, ids2, hwinv⟩) with hres | ⟨s4, tr4, hres⟩ |
            ⟨s4, tr4, ids3, ids4, hres, hi1, hi2⟩
        · rw [hres] at hok
          exact absurd hok (by simp)
        · rw [hres] at hok
          exact absurd hok (by simp)
        · rw [hres] at hok
          injection hok with hs htr
          rw [← hs]
          exact ⟨ids3, ids4, hi1, hi2⟩

/-- Two disjoint well-formed lists: list 0 owns node 2 between sentinels
0 and 1; list 1 is empty between sentinels 4 and 5. -/
def twoListState : State where
  nodes := fun i =>
    if i = 0 then ⟨0, 0, none, false, none, none, some 2⟩
    else if i = 1 then ⟨0, 0, none, false, none, some 2, none⟩
    else if i = 2 then ⟨0, 0, none, false, some 0, some 0, some 1⟩
    else if i = 4 then ⟨0, 0, none, false, none, none, some 5⟩
    else if i = 5 then ⟨0, 0, none, false, none, some 4, none⟩
    else ⟨0, 0, none, false, none, none, none⟩
  lrus := fun l => if l = 0 then ⟨256, 0, 1⟩ else ⟨0, 4, 5⟩

theorem twoList_inv0 : ListInv twoListState 0 [2] := by
  refine ⟨?_, ?_, ?_, ?_, ?_⟩
  · decide
  · simp [List.chain'_cons, List.chain'_singleton, NextR, twoListState]
  · simp [List.chain'_cons, List.chain'_singleton, PrevR, twoListState]
  · intro n hn
    have : n = 2 := List.mem_singleton.mp hn
    subst this
    decide
  · decide

theorem twoList_inv1 : ListInv twoListState 1 [] := by
  refine ⟨?_, ?_, ?_, ?_, ?_⟩
  · decide
  · simp [List.chain'_cons, List.chain'_singleton, NextR, twoListState]
  · simp [List.chain'_cons, List.chain'_singleton, PrevR, twoListState]
  · intro n hn
    simp at hn
  · decide

/-- Witness for C2: both parts applied to concrete lists. -/
theorem pushBack_shrink_preserve_inv_witness :
    (∃ s5, pushBack oneNodeState 0 3 = some s5 ∧ ListInv s5 0 ([2] ++ [3])) ∧
    (∃ s3 tr ids3 ids4, shrink false dropAllCbs 0 0 0 5 twoListState =
      .ok s3 tr ∧ ListInv s3 0 ids3 ∧ ListInv s3 1 ids4) := by
  constructor
  · refine ⟨_, rfl, ?_⟩
    exact (pushBack_shrink_preserve_inv false).1 oneNodeState 0 [2] 3 _
      oneNode_listInv (by decide) (by decide) (by decide) rfl
  · obtain ⟨ids3, ids4, hi3, hi4⟩ :=
      (pushBack_shrink_preserve_inv false).2 dropAllCbs 0 0 0 1 twoListState
        [2] [] 5 _ _ ⟨Or.inl rfl, Or.inl rfl, Or.inl rfl⟩
        twoList_inv0 twoList_inv1 (by decide) (by decide) rfl
    exact ⟨_, _, ids3, ids4, rfl, hi3, hi4⟩

/-! ### C5: the tail-sentinel assertion -/

/-- C5 (amended): stepping onto the tail sentinel while the recorded size
still exceeds the target panics with the tail assertion; and the panic is
unreachable for a nonnegative target when the size accounting and chain
invariants hold and every callback removes the walked node from the source
list (drop, or move to a disjoint list).  A callback that re-attaches the
walked node to the source list itself can still reach the panic. -/
theorem shrink_tail_assert_spec :
    (∀ (dbg : Bool) (cbs : Callbacks) (toSize now : Int) (lid : Nat)
      (fuel : Nat) (s : State) (cur : Nat),
      toSize < (s.lrus lid).size → cur = (s.lrus lid).fakeTail →
      shrinkLoop dbg cbs toSize now lid (fuel + 1) s cur =
        .panicked tailMsg s []) ∧
    (∀ (dbg : Bool) (cbs : Callbacks) (toSize now : Int) (lid l2 : Nat)
      (s : State) (ids ids2 : List Nat) (fuel : Nat) (s3 : State)
      (tr : List WalkStep),
      CbsOkStrict dbg l2 cbs → 0 ≤ toSize →
      ListInv s lid ids → ListInv s l2 ids2 →
      (∀ x ∈ ((s.lrus l2).fakeHead :: ids2) ++ [(s.lrus l2).fakeTail],
        x ∉ ((s.lrus lid).fakeHead :: ids) ++ [(s.lrus lid).fakeTail]) →
      lid ≠ l2 →
      shrink dbg cbs toSize now lid fuel s ≠ .panicked tailMsg s3 tr) := by
  constructor
  · intro dbg cbs toSize now lid fuel s cur h1 h2
    exact shrinkLoop_tail_panic dbg cbs toSize now lid fuel s cur h1 h2
  · intro dbg cbs toSize now lid l2 s ids ids2 fuel s3 tr hcbs h0 h1 h2 hdisj
      hne h
    unfold shrink at h
    split at h
    · rename_i hneg
      omega
    · split at h
      · simp only [ShrinkResult.panicked.injEq] at h
        have : nilMsg = tailMsg := h.1
        exact absurd this (by decide)
      · rename_i hd hhd
        obtain ⟨hd', hhd', hwinv⟩ := walkInv_init s lid l2 ids ids2 h1 h2 hdisj hne
        rw [hhd] at hhd'
        injection hhd' with he
        rw [← he] at hwinv
        exact shrinkLoop_no_tail_panic dbg cbs toSize now lid l2 hcbs h0 fuel
          s hd ids ids2 hwinv s3 tr h

/-- Witness for C5: the panic fires on a doomed configuration, and a
drop-everything shrink over two disjoint lists never hits it. -/
theorem shrink_tail_assert_spec_witness :
    shrinkLoop false dropAllCbs 0 0 0 1 oneNodeState 1 =
      .panicked tailMsg oneNodeState [] ∧
    shrink false dropAllCbs 0 0 0 5 twoListState ≠
      .panicked tailMsg twoListState [] := by
  constructor
  · exact shrink_tail_assert_spec.1 false dropAllCbs 0 0 0 0 oneNodeState 1
      (by decide) (by decide)
  · exact shrink_tail_assert_spec.2 false dropAllCbs 0 0 0 1 twoListState
      [2] [] 5 twoListState [] ⟨Or.inl rfl, Or.inl rfl, Or.inl rfl⟩
      (by decide) twoList_inv0 twoList_inv1 (by decide) (by decide)

/-- One active oversized node in list 0: size 300 against target 256, with
correct size accounting. -/
def cexC5State : State where
  nodes := fun i =>
    if i = 0 then ⟨0, 0, none, false, none, none, some 2⟩
    else if i = 1 then ⟨0, 0, none, false, none, some 2, none⟩
    else if i = 2 then ⟨0, 44, none, true, some 0, some 0, some 1⟩
    else ⟨0, 0, none, false, none, none, none⟩
  lrus := fun _ => ⟨300, 0, 1⟩

/-- Hot-compaction-style callbacks: on-active re-attaches to the source
list (list 0) with the bit cleared. -/
def cexC5Cbs : Callbacks :=
  ⟨dropNode false, moveTo false 0, dropNode false⟩

/-- Recognizer for the tail-sentinel panic. -/
def isTailPanic : ShrinkResult → Bool
  | .panicked m _ _ => m = tailMsg
  | _ => false

/-- Counterexample to C5 as stated: with correct size accounting (size =
sum of owned node sizes, here a single active node of size 300) and the
hot compaction's invariant-preserving re-attach callback, shrinking to 256
still reaches the tail-sentinel panic. -/
theorem shrink_tail_assert_reachable :
    (cexC5State.lrus 0).size = sumSizes cexC5State [2] ∧
    cexC5Cbs.onActive = moveTo false 0 ∧
    (0 : Int) ≤ 256 ∧
    isTailPanic (shrink false cexC5Cbs 256 0 0 3 cexC5State) = true := by
  refine ⟨by decide, rfl, by decide, ?_⟩
  rfl

/-! ### C1: the shrink walk and its callback dispatch -/

/-- Properties of a completed shrink walk, proved over the loop: the final
size is at or below the target, each walked step started above the target,
the callback choice follows the expired / active / inactive rule on the
node data read at dispatch time, the first walked node is the starting
node, and consecutive walked nodes follow the captured next pointers. -/
theorem shrinkLoop_ok_props (dbg : Bool) (cbs : Callbacks) (toSize now : Int)
    (lid : Nat) :
    ∀ (fuel : Nat) (s : State) (cur : Nat) (s1 : State) (tr : List WalkStep),
      shrinkLoop dbg cbs toSize now lid fuel s cur = .ok s1 tr →
      (s1.lrus lid).size ≤ toSize ∧
      (∀ st ∈ tr, toSize < st.sizeBefore) ∧
      (∀ st ∈ tr,
        (st.choice = .expire ↔ st.snap.expired now = true) ∧
        (st.choice = .act ↔ st.snap.expired now = false ∧ st.snap.active = true) ∧
        (st.choice = .inact ↔ st.snap.expired now = false ∧ st.snap.active = false)) ∧
      (∀ st, tr.head? = some st → st.node = cur) ∧
      tr.Chain' (fun a b => a.snap.next = some b.node) := by
  intro fuel
  induction fuel with
  | zero => intro s cur s1 tr h; simp [shrinkLoop] at h
  | succ fuel ih =>
    intro s cur s1 tr h
    rw [shrinkLoop] at h
    simp only at h
    split at h
    case isTrue hsz =>
      split at h
      case isTrue htail => exact absurd h (by simp)
      case isFalse htail =>
        split at h
        case h_1 => exact absurd h (by simp)
        case h_2 s2 hcb =>
          split at h
          case h_1 => exact absurd h (by simp)
          case h_2 nx hnx =>
            split at h
            case h_2 => exact absurd h (by simp)
            case h_3 => exact absurd h (by simp)
            case h_1 s3 tr3 hrec =>
              simp only [ShrinkResult.ok.injEq] at h
              obtain ⟨hs1, htr⟩ := h
              subst htr
              rw [← hs1]
              obtain ⟨ihA, ihB, ihC, ihD, ihE⟩ := ih s2 nx s3 tr3 hrec
              have hchoice :
                  (dispatchChoice now (s.nodes cur) = .expire ↔
                    (s.nodes cur).expired now = true) ∧
                  (dispatchChoice now (s.nodes cur) = .act ↔
                    (s.nodes cur).expired now = false ∧
                      (s.nodes cur).active = true) ∧
                  (dispatchChoice now (s.nodes cur) = .inact ↔
                    (s.nodes cur).expired now = false ∧
                      (s.nodes cur).active = false) := by
                unfold dispatchChoice
                by_cases he : (s.nodes cur).expired now
                · simp [he]
                · by_cases ha : (s.nodes cur).active <;> simp [he, ha]
              refine ⟨ihA, ?_, ?_, ?_, ?_⟩
              · intro st hst
                rcases List.mem_cons.mp hst with hst | hst
                · subst hst; exact hsz
                · exact ihB st hst
              · intro st hst
                rcases List.mem_cons.mp hst with hst | hst
                · subst hst; exact hchoice
                · exact ihC st hst
              · intro st hst
                simp only [List.head?_cons, Option.some.injEq] at hst
                subst hst
                rfl
              · rw [List.chain'_cons']
                refine ⟨?_, ihE⟩
                intro y hy
                have := ihD y hy
                simp only [this, hnx]
    case isFalse hsz =>
      simp only [ShrinkResult.ok.injEq] at h
      obtain ⟨hs1, htr⟩ := h
      subst htr
      rw [← hs1]
      refine ⟨?_, ?_, ?_, ?_, ?_⟩
      · simp only [link_lrus]
        omega
      · intro st hst; simp at hst
      · intro st hst; simp at hst
      · intro st hst; simp at hst
      · exact List.chain'_nil

/-- C1: a completed `shrink(t, now)` run walks nodes starting at the list
head along the captured next pointers, walks a node only while the
recorded size still exceeds the target (and ends at or below it), and for
each walked node fires exactly one callback, chosen by the first matching
rule: on-expire if the node has a finite expiry with `now ≥ expiry`,
otherwise on-active if its active bit is set, otherwise on-inactive. -/
theorem shrink_walk_spec (dbg : Bool) (cbs : Callbacks) (toSize now : Int)
    (lid : Nat) (fuel : Nat) (s : State) (s1 : State) (tr : List WalkStep)
    (h : shrink dbg cbs toSize now lid fuel s = .ok s1 tr) :
    (s1.lrus lid).size ≤ toSize ∧
    (∀ st ∈ tr, toSize < st.sizeBefore) ∧
    (∀ st ∈ tr,
      (st.choice = .expire ↔ ∃ e, st.snap.expiry = some e ∧ e ≤ now) ∧
      (st.choice = .act ↔ st.snap.expired now = false ∧ st.snap.active = true) ∧
      (st.choice = .inact ↔ st.snap.expired now = false ∧ st.snap.active = false)) ∧
    (∀ st, tr.head? = some st →
      (s.nodes (s.lrus lid).fakeHead).next = some st.node) ∧
    tr.Chain' (fun a b => a.snap.next = some b.node) := by
  unfold shrink at h
  by_cases hneg : toSize < 0
  · rw [if_pos hneg] at h
    exact absurd h (by simp)
  · rw [if_neg hneg] at h
    rcases hhd : (s.nodes (s.lrus lid).fakeHead).next with _ | hd
    · rw [hhd] at h
      exact absurd h (by simp)
    · rw [hhd] at h
      obtain ⟨hA, hB, hC, hD, hE⟩ :=
        shrinkLoop_ok_props dbg cbs toSize now lid fuel s hd s1 tr h
      refine ⟨hA, hB, ?_, ?_, hE⟩
      · intro st hst
        obtain ⟨hc1, hc2, hc3⟩ := hC st hst
        refine ⟨?_, hc2, hc3⟩
        rw [hc1]
        unfold Node.expired
        rcases st.snap.expiry with _ | e
        · simp
        · simp [decide_eq_true_eq]
      · intro st hst
        rw [hD st hst]

/-- Witness for C1: a one-node list shrunk to zero walks exactly that node
as inactive. -/
theorem shrink_walk_spec_witness :
    ∃ s1 tr, shrink false dropAllCbs 0 0 0 3 oneNodeState = .ok s1 tr ∧
      ((s1.lrus 0).size ≤ 0 ∧ ∀ st ∈ tr, (0 : Int) < st.sizeBefore) := by
  refine ⟨_, _, rfl, ?_, ?_⟩
  · exact (shrink_walk_spec false dropAllCbs 0 0 0 3 oneNodeState _ _ rfl).1
  · exact (shrink_walk_spec false dropAllCbs 0 0 0 3 oneNodeState _ _ rfl).2.1

/-! ### C7: detach and disown touch exactly what they should -/

/-- C7: `detach` relinks the node's neighbours to each other (and in debug
builds nulls the node's own prev and next), changing no list record, no
owner field and no other node; `disown` subtracts the node's size from its
owner's size counter (and in debug builds clears the owner field), leaving
every prev/next link, every other list and every other node unchanged. -/
theorem detach_disown_frame (dbg : Bool) :
    (∀ (s : State) (n p q : Nat),
      (s.nodes n).prev = some p → (s.nodes n).next = some q →
      p ≠ n → q ≠ n →
      ∃ s1, detach dbg s n = some s1 ∧
        s1.lrus = s.lrus ∧
        (∀ m, (s1.nodes m).owner = (s.nodes m).owner) ∧
        (s1.nodes p).next = some q ∧
        (s1.nodes q).prev = some p ∧
        (dbg = true → (s1.nodes n).prev = none ∧ (s1.nodes n).next = none) ∧
        (∀ m, m ≠ p → m ≠ q → m ≠ n → s1.nodes m = s.nodes m)) ∧
    (∀ (s : State) (n lid : Nat),
      (s.nodes n).owner = some lid →
      ∃ s1, disown dbg s n = some s1 ∧
        (∀ m, (s1.nodes m).prev = (s.nodes m).prev ∧
              (s1.nodes m).next = (s.nodes m).next) ∧
        (s1.lrus lid).size = (s.lrus lid).size - (s.nodes n).size ∧
        (s1.lrus lid).fakeHead = (s.lrus lid).fakeHead ∧
        (s1.lrus lid).fakeTail = (s.lrus lid).fakeTail ∧
        (∀ l2, l2 ≠ lid → s1.lrus l2 = s.lrus l2) ∧
        (dbg = true → (s1.nodes n).owner = none) ∧
        (∀ m, m ≠ n → s1.nodes m = s.nodes m)) := by
  constructor
  · intro s n p q hp hq hpn hqn
    refine ⟨_, by rw [detach, hp, hq], ?_, ?_, ?_, ?_, ?_, ?_⟩
    · cases dbg <;> simp
    · intro m
      cases dbg
      · simp only [Bool.false_eq_true, if_false]
        rw [link_owner]
      · simp only [if_true]
        by_cases hmn : m = n
        · subst hmn
          rw [setNode_nodes_self]
          simp only
          rw [link_owner]
        · rw [setNode_nodes_ne _ _ hmn, link_owner]
    · cases dbg
      · simp only [Bool.false_eq_true, if_false]
        rw [link_next_left]
      · simp only [if_true]
        rw [setNode_nodes_ne _ _ hpn, link_next_left]
    · cases dbg
      · simp only [Bool.false_eq_true, if_false]
        rw [link_prev_right]
      · simp only [if_true]
        rw [setNode_nodes_ne _ _ hqn, link_prev_right]
    · intro hdbg
      subst hdbg
      simp only [if_true]
      rw [setNode_nodes_self]
      exact ⟨rfl, rfl⟩
    · intro m hmp hmq hmn
      cases dbg
      · simp only [Bool.false_eq_true, if_false]
        rw [link_nodes_outside s p q hmp hmq]
      · simp only [if_true]
        rw [setNode_nodes_ne _ _ hmn, link_nodes_outside s p q hmp hmq]
  · intro s n lid h
    refine ⟨_, by rw [disown, h], ?_, ?_, ?_, ?_, ?_, ?_, ?_⟩
    · intro m
      cases dbg
      · simp
      · simp only [if_true]
        by_cases hmn : m = n
        · subst hmn
          rw [setNode_nodes_self]
          simp [setLru]
        · rw [setNode_nodes_ne _ _ hmn]
          simp [setLru]
    · cases dbg <;> simp [setLru_lrus_self]
    · cases dbg <;> simp [setLru_lrus_self]
    · cases dbg <;> simp [setLru_lrus_self]
    · intro l2 hl2
      cases dbg <;> simp [setLru_lrus_ne _ _ hl2]
    · intro hdbg
      subst hdbg
      simp only [if_true]
      rw [setNode_nodes_self]
    · intro m hmn
      cases dbg
      · simp
      · simp only [if_true]
        rw [setNode_nodes_ne _ _ hmn]
        simp [setLru]

/-- Witness for C7 on the one-node list in a debug build. -/
theorem detach_disown_frame_witness :
    (∃ s1, detach true oneNodeState 2 = some s1 ∧
      (s1.nodes 0).next = some 1 ∧ (s1.nodes 2).prev = none) ∧
    (∃ s1, disown true oneNodeState 2 = some s1 ∧
      (s1.lrus 0).size = 0 ∧ (s1.nodes 2).owner = none) := by
  constructor
  · obtain ⟨s1, h1, _, _, h4, h5, h6, _⟩ :=
      (detach_disown_frame true).1 oneNodeState 2 0 1 rfl rfl
        (by decide) (by decide)
    exact ⟨s1, h1, h4, (h6 rfl).1⟩
  · obtain ⟨s1, h1, _, h3, _, _, _, h7, _⟩ :=
      (detach_disown_frame true).2 oneNodeState 2 0 rfl
    refine ⟨s1, h1, ?_, h7 rfl⟩
    rw [h3]
    decide

/-! ### C3: termination of shrink -/

/-- Fuel bound: when every callback invocation strictly reduces the source
list's recorded size, fuel beyond the size excess never runs out. -/
theorem shrinkLoop_fuel_bound (dbg : Bool) (cbs : Callbacks) (toSize now : Int)
    (lid : Nat)
    (hcb : ∀ (cb : State → Nat → Option State),
      (cb = cbs.onExpire ∨ cb = cbs.onActive ∨ cb = cbs.onInactive) →
      ∀ (s : State) (n : Nat) (s2 : State), cb s n = some s2 →
        (s2.lrus lid).size < (s.lrus lid).size) :
    ∀ (fuel : Nat) (s : State) (cur : Nat),
      ((s.lrus lid).size - toSize).toNat < fuel →
      shrinkLoop dbg cbs toSize now lid fuel s cur ≠ .outOfFuel := by
  intro fuel
  induction fuel with
  | zero =>
    intro s cur h
    exact absurd h (by omega)
  | succ fuel ih =>
    intro s cur hfuel
    by_cases hsz : toSize < (s.lrus lid).size
    · by_cases htail : cur = (s.lrus lid).fakeTail
      · rw [shrinkLoop_tail_panic dbg cbs toSize now lid fuel s cur hsz htail]
        simp
      · cases hres : dispatchCb cbs now (s.nodes cur)
            (if dbg then setNode s cur { s.nodes cur with prev := none } else s)
            cur with
        | none =>
          rw [shrinkLoop_cb_panic dbg cbs toSize now lid fuel s cur hsz htail hres]
          simp
        | some s2 =>
          cases hnx : (s.nodes cur).next with
          | none =>
            rw [shrinkLoop_nilnext_panic dbg cbs toSize now lid fuel s cur s2
              hsz htail hres hnx]
            simp
          | some nx =>
            rw [shrinkLoop_step dbg cbs toSize now lid fuel s cur s2 nx hsz
              htail hres hnx]
            have hlt : (s2.lrus lid).size < (s.lrus lid).size := by
              have hA : ((if dbg then setNode s cur { s.nodes cur with prev := none }
                  else s).lrus lid).size = (s.lrus lid).size := by
                cases dbg <;> rfl
              have := hcb _ (dispatchCb_mem cbs now (s.nodes cur)) _ cur s2 hres
              rw [hA] at this
              exact this
            have hrec := ih s2 nx (by omega)
            cases hrecres : shrinkLoop dbg cbs toSize now lid fuel s2 nx with
            | ok s4 tr4 => simp
            | panicked m s4 tr4 => simp
            | outOfFuel => exact absurd hrecres hrec
    · rw [shrinkLoop_exit dbg cbs toSize now lid fuel s cur hsz]
      simp

/-- C3 (amended): a shrink to a nonnegative target terminates after
finitely many callback invocations when every callback invocation strictly
reduces the source list's recorded size. -/
theorem shrink_terminates_of_dec (dbg : Bool) (cbs : Callbacks)
    (toSize now : Int) (lid : Nat) (h0 : 0 ≤ toSize)
    (hcb : ∀ (cb : State → Nat → Option State),
      (cb = cbs.onExpire ∨ cb = cbs.onActive ∨ cb = cbs.onInactive) →
      ∀ (s : State) (n : Nat) (s2 : State), cb s n = some s2 →
        (s2.lrus lid).size < (s.lrus lid).size)
    (s : State) : shrinkTerminates dbg cbs toSize now lid s := by
  refine ⟨((s.lrus lid).size - toSize).toNat + 1, ?_⟩
  unfold shrink
  split
  · simp
  · split
    · simp
    · exact shrinkLoop_fuel_bound dbg cbs toSize now lid hcb _ s _ (by omega)

/-- A callback that decrements the size counter of list `lid`. -/
def decCb (lid : Nat) : State → Nat → Option State :=
  fun s _ => some (setLru s lid { s.lrus lid with size := (s.lrus lid).size - 1 })

/-- Callbacks that always strictly decrease the size of list `lid`. -/
def decCbs (lid : Nat) : Callbacks := ⟨decCb lid, decCb lid, decCb lid⟩

/-- Witness for C3: the amended theorem applied to size-decreasing
callbacks on the one-node list. -/
theorem shrink_terminates_of_dec_witness :
    shrinkTerminates false (decCbs 0) 0 0 0 oneNodeState := by
  refine shrink_terminates_of_dec false (decCbs 0) 0 0 0 (by decide) ?_ oneNodeState
  intro cb hmem s n s2 hres
  have hcb : cb = decCb 0 := by
    rcases hmem with h | h | h <;> exact h
  rw [hcb] at hres
  unfold decCb at hres
  injection hres with h
  rw [← h, setLru_lrus_self]
  show (s.lrus 0).size - 1 < (s.lrus 0).size
  omega

/-- Structure extensionality for states. -/
theorem stateExt (s t : State) (h1 : s.nodes = t.nodes)
    (h2 : s.lrus = t.lrus) : s = t := by
  cases s
  cases t
  cases h1
  cases h2
  rfl

/-- A move callback always re-inserts the moved node with its active bit
cleared. -/
theorem moveTo_clears_active (dbg : Bool) (dst : Nat) (s : State) (n : Nat)
    (s2 : State) (h : moveTo dbg dst s n = some s2) :
    (s2.nodes n).active = false := by
  unfold moveTo at h
  cases hd : disown dbg s n with
  | none =>
    rw [hd] at h
    simp at h
  | some sB =>
    rw [hd] at h
    have h2 : pushBack sB dst n = some s2 := h
    unfold pushBack attachAsInactive at h2
    simp only [setLru_nodes, setNode_nodes_self] at h2
    split at h2
    · exact absurd h2 (by simp)
    · injection h2 with h3
      rw [← h3, link_active, link_active, setNode_nodes_self]

/-- Two inactive nodes (ids 2 and 3) between the sentinels of list 0. -/
def cexC3S0 : State where
  nodes := fun i =>
    if i = 0 then ⟨0, 0, none, false, none, none, some 2⟩
    else if i = 1 then ⟨0, 0, none, false, none, some 3, none⟩
    else if i = 2 then ⟨0, 0, none, false, some 0, some 0, some 3⟩
    else if i = 3 then ⟨0, 0, none, false, some 0, some 2, some 1⟩
    else ⟨0, 0, none, false, none, none, none⟩
  lrus := fun _ => ⟨512, 0, 1⟩

/-- Callbacks that re-attach every walked node to the source list. -/
def cexC3Cbs : Callbacks := ⟨moveTo false 0, moveTo false 0, moveTo false 0⟩

/-- The state after the walk re-attaches node 2 before the tail sentinel. -/
def cexC3S1 : State where
  nodes := fun i =>
    if i = 0 then ⟨0, 0, none, false, none, none, some 2⟩
    else if i = 1 then ⟨0, 0, none, false, none, some 2, none⟩
    else if i = 2 then ⟨0, 0, none, false, some 0, some 3, some 1⟩
    else if i = 3 then ⟨0, 0, none, false, some 0, some 2, some 2⟩
    else ⟨0, 0, none, false, none, none, none⟩
  lrus := fun _ => ⟨512, 0, 1⟩

/-- The state after the walk additionally re-attaches node 3. -/
def cexC3S2 : State where
  nodes := fun i =>
    if i = 0 then ⟨0, 0, none, false, none, none, some 2⟩
    else if i = 1 then ⟨0, 0, none, false, none, some 3, none⟩
    else if i = 2 then ⟨0, 0, none, false, some 0, some 3, some 3⟩
    else if i = 3 then ⟨0, 0, none, false, some 0, some 2, some 1⟩
    else ⟨0, 0, none, false, none, none, none⟩
  lrus := fun _ => ⟨512, 0, 1⟩

/-- Computing a same-list `moveTo` on a concretely described state: the
result is determined pointwise by the splice of `n` between the old tail
`t` and the tail sentinel `ft`. -/
theorem moveTo_concrete (s s' : State) (n t ft : Nat)
    (how : (s.nodes n).owner = some 0)
    (hft : (s.lrus 0).fakeTail = ft)
    (hprev : (s.nodes ft).prev = some t)
    (hnft : n ≠ ft) (htn : t ≠ n) (htf : t ≠ ft)
    (hn' : s'.nodes n =
      { s.nodes n with
        owner := some 0, active := false, prev := some t, next := some ft })
    (ht' : s'.nodes t = { s.nodes t with next := some n })
    (hft' : s'.nodes ft = { s.nodes ft with prev := some n })
    (hfr : ∀ m, m ≠ n → m ≠ t → m ≠ ft → s'.nodes m = s.nodes m)
    (hl : s'.lrus 0 = s.lrus 0)
    (hlo : ∀ l, l ≠ 0 → s'.lrus l = s.lrus l) :
    moveTo false 0 s n = some s' := by
  obtain ⟨s1, hd, _, _, _, _, hsz1, hid, _, hfr1, hl1, hlo1⟩ :=
    disown_spec false s n 0 how
  have hnodes1 : s1.nodes = s.nodes := by
    funext m
    by_cases hm : m = n
    · subst hm
      exact hid rfl
    · exact hfr1 m hm
  have hft1 : (s1.lrus 0).fakeTail = ft := by
    rw [hl1]
    exact hft
  obtain ⟨s5, hpb, h2, h3, h4, h5, _, h7, h8⟩ :=
    pushBack_spec s1 0 n t
      (by rw [hft1, hnodes1]; exact hprev)
      (by rw [hft1]; exact hnft) htn
      (by rw [hft1]; exact htf)
  rw [hft1, hnodes1] at h2
  rw [hnodes1] at h3
  rw [hft1, hnodes1] at h4
  rw [hft1, hnodes1] at h5
  have hfin : s5 = s' := by
    apply stateExt
    · funext m
      by_cases hmn : m = n
      · subst hmn
        rw [h2, hn']
      · by_cases hmt : m = t
        · subst hmt
          rw [h3, ht']
        · by_cases hmft : m = ft
          · subst hmft
            rw [h4, hft']
          · rw [h5 m hmn hmt hmft, hfr m hmn hmt hmft]
    · funext l
      by_cases hl0 : l = 0
      · subst hl0
        rw [h7, hl1, hsz1, hl]
        have harith : (s.lrus 0).size - (s.nodes n).size + (s.nodes n).size =
            (s.lrus 0).size := by ring
        simp [harith]
      · rw [h8 l hl0, hlo1 l hl0, hlo l hl0]
  have hmv : moveTo false 0 s n = pushBack s1 0 n := by
    unfold moveTo
    rw [hd]
    rfl
  rw [hmv, hpb, hfin]

theorem cexC3_step01 : moveTo false 0 cexC3S0 2 = some cexC3S1 := by
  apply moveTo_concrete cexC3S0 cexC3S1 2 3 1 rfl rfl rfl (by decide) (by decide)
    (by decide) (by decide) (by decide) (by decide) ?_ rfl ?_
  · intro m h2 h3 h1
    by_cases h0 : m = 0
    · subst h0
      rfl
    · show cexC3S1.nodes m = cexC3S0.nodes m
      simp only [cexC3S1, cexC3S0]
      simp [h0, h1, h2, h3]
  · intro l hl
    rfl

theorem cexC3_step12 : moveTo false 0 cexC3S1 3 = some cexC3S2 := by
  apply moveTo_concrete cexC3S1 cexC3S2 3 2 1 rfl rfl rfl (by decide) (by decide)
    (by decide) (by decide) (by decide) (by decide) ?_ rfl ?_
  · intro m h3 h2 h1
    by_cases h0 : m = 0
    · subst h0
      rfl
    · show cexC3S2.nodes m = cexC3S1.nodes m
      simp only [cexC3S2, cexC3S1]
      simp [h0, h1, h2, h3]
  · intro l hl
    rfl

theorem cexC3_step21 : moveTo false 0 cexC3S2 2 = some cexC3S1 := by
  apply moveTo_concrete cexC3S2 cexC3S1 2 3 1 rfl rfl rfl (by decide) (by decide)
    (by decide) (by decide) (by decide) (by decide) ?_ rfl ?_
  · intro m h2 h3 h1
    by_cases h0 : m = 0
    · subst h0
      rfl
    · show cexC3S1.nodes m = cexC3S2.nodes m
      simp only [cexC3S1, cexC3S2]
      simp [h0, h1, h2, h3]
  · intro l hl
    rfl

theorem cexC3_loop : ∀ fuel : Nat,
    shrinkLoop false cexC3Cbs 0 0 0 fuel cexC3S1 3 = .outOfFuel ∧
    shrinkLoop false cexC3Cbs 0 0 0 fuel cexC3S2 2 = .outOfFuel := by
  intro fuel
  induction fuel with
  | zero => exact ⟨rfl, rfl⟩
  | succ fuel ih =>
    constructor
    · rw [shrinkLoop_step false cexC3Cbs 0 0 0 fuel cexC3S1 3 cexC3S2 2
        (by decide) (by decide) cexC3_step12 (by decide)]
      rw [ih.2]
    · rw [shrinkLoop_step false cexC3Cbs 0 0 0 fuel cexC3S2 2 cexC3S1 3
        (by decide) (by decide) cexC3_step21 (by decide)]
      rw [ih.1]

theorem cexC3_shrink_out :
    ∀ fuel, shrink false cexC3Cbs 0 0 0 fuel cexC3S0 = .outOfFuel := by
  intro fuel
  cases fuel with
  | zero => rfl
  | succ fuel =>
    show shrinkLoop false cexC3Cbs 0 0 0 (fuel + 1) cexC3S0 2 = .outOfFuel
    rw [shrinkLoop_step false cexC3Cbs 0 0 0 fuel cexC3S0 2 cexC3S1 3
      (by decide) (by decide) cexC3_step01 (by decide)]
    rw [(cexC3_loop fuel).1]

/-- Counterexample to C3 as stated: all three callbacks are re-attaching
callbacks that re-insert the walked node with its active bit cleared (the
claim's hypothesis on moving or re-attaching callbacks, with no non-move
callback present), the target is 0, yet the shrink walk never terminates:
it revisits the two re-attached nodes forever. -/
theorem shrink_livelock :
    (∀ (s : State) (n : Nat) (s2 : State),
      moveTo false 0 s n = some s2 → (s2.nodes n).active = false) ∧
    cexC3Cbs.onExpire = moveTo false 0 ∧
    cexC3Cbs.onActive = moveTo false 0 ∧
    cexC3Cbs.onInactive = moveTo false 0 ∧
    ¬ shrinkTerminates false cexC3Cbs 0 0 0 cexC3S0 := by
  refine ⟨fun s n s2 h => moveTo_clears_active false 0 s n s2 h, rfl, rfl, rfl, ?_⟩
  rintro ⟨fuel, hf⟩
  exact hf (cexC3_shrink_out fuel)

end Memcached
